import Mathlib

/-!
Verification development for the TikTok Shop product/creator tracker
(`src/main.js`).  The JavaScript source is shallowly embedded: JS values are
modelled by `JVal` (with `JNum` for IEEE-style numbers including NaN and
infinities), page state by `PageState`, and each source function
(`extractProduct`, `detectChanges`, `sendNotifications`,
`collectProductLinks`, the PRODUCT branch of the request handler) by a
computable Lean definition.  Places where the JS can throw an uncaught
exception are modelled in the `Except Unit` monad; `try`/`catch` blocks of
the source appear as local matches that swallow the error.
-/

/-- JS numbers: NaN, signed infinities, or a finite value (modelled as ℚ;
the source never relies on rounding of binary floating point, only on
NaN/zero/truthiness behaviour, which is preserved exactly). -/
inductive JNum where
  | nan : JNum
  | inf (neg : Bool) : JNum
  | fin (q : ℚ) : JNum
deriving DecidableEq

/-- JS values as they occur in the embedded page state (JSON values plus
`undefined`, which arises from missing-property reads). -/
inductive JVal where
  | undefined : JVal
  | null : JVal
  | bool (b : Bool) : JVal
  | num (n : JNum) : JVal
  | str (s : String) : JVal
  | arr (xs : List JVal) : JVal
  | obj (fields : List (String × JVal)) : JVal

/-- JS truthiness. -/
def truthy : JVal → Bool
  | .undefined => false
  | .null => false
  | .bool b => b
  | .num .nan => false
  | .num (.inf _) => true
  | .num (.fin q) => q ≠ 0
  | .str s => s ≠ ""
  | .arr _ => true
  | .obj _ => true

/-- JS `a || b` (value-returning short-circuit or). -/
def jsOr (a b : JVal) : JVal := if truthy a then a else b

/-- `null`/`undefined` test (the values on which property access throws,
and the values matched by a loose `x != null` / `x ?? y`). -/
def isNullish : JVal → Bool
  | .null => true
  | .undefined => true
  | _ => false

/-- JS `x ?? null` normalization. -/
def normNullish (v : JVal) : JVal := if isNullish v then .null else v

/-- Guarded property read `v.k`.  Only used at call sites where the source
has already ruled out `null`/`undefined` (via a truthiness guard, `&&`, or
optional chaining); on those values it returns `undefined` like JS does on
non-object primitives, and object lookup is first-match (JS objects have
unique keys). -/
def jsGetD (v : JVal) (k : String) : JVal :=
  match v with
  | .obj fs => match fs.lookup k with
    | some w => w
    | none => .undefined
  | _ => .undefined

/-- `typeof v === 'object'` for non-null values (arrays included). -/
def isObjLike : JVal → Bool
  | .obj _ => true
  | .arr _ => true
  | _ => false

/-- `Object.entries` (array entries get stringified indices as keys). -/
def entriesOf : JVal → List (String × JVal)
  | .obj fs => fs
  | .arr xs => ((List.range xs.length).zip xs).map (fun p => (toString p.1, p.2))
  | _ => []

/-- Rendering of a JS number by `String(...)`.  Exact for NaN, infinities
and integers (the only numeric values the verified paths ever render);
non-integral rationals are rendered as "num.den" with a dot separator,
which like the JS rendering is never empty. -/
def jsNumToString : JNum → String
  | .nan => "NaN"
  | .inf false => "Infinity"
  | .inf true => "-Infinity"
  | .fin q => if q.den = 1 then toString q.num else toString q.num ++ "." ++ toString q.den

/-- Whitespace for the purposes of `String.prototype.trim` and of `\s` in
the source's regexes. -/
def isWsJs (c : Char) : Bool :=
  c = ' ' ∨ c = '\t' ∨ c = '\n' ∨ c = '\r' ∨ c = '\x0b' ∨ c = '\x0c'

/-- Characters allowed in a JS decimal numeric literal (after trimming);
`,` is famously not among them, so `Number("1,99")` is NaN. -/
def jsNumChar (c : Char) : Bool :=
  c.isDigit ∨ c = '+' ∨ c = '-' ∨ c = '.' ∨ c = 'e' ∨ c = 'E' ∨
  c = 'I' ∨ c = 'n' ∨ c = 'f' ∨ c = 'i' ∨ c = 't' ∨ c = 'y'

def digitVal (c : Char) : Nat := c.toNat - '0'.toNat

def digitsToNat (ds : List Char) : Nat :=
  ds.foldl (fun a c => a * 10 + digitVal c) 0

/-- Parse the body of a JS decimal literal `digits* ('.' digits*)?`,
requiring at least one digit overall; returns the value and the rest. -/
def parseDecBody (cs : List Char) : Option (ℚ × List Char) :=
  let intPart := cs.takeWhile Char.isDigit
  let rest1 := cs.dropWhile Char.isDigit
  match rest1 with
  | '.' :: r2 =>
    let fracPart := r2.takeWhile Char.isDigit
    let rest2 := r2.dropWhile Char.isDigit
    if intPart = [] ∧ fracPart = [] then none
    else some (((digitsToNat intPart : ℚ) +
      (digitsToNat fracPart : ℚ) / ((10 : ℚ) ^ fracPart.length)), rest2)
  | _ =>
    if intPart = [] then none
    else some ((digitsToNat intPart : ℚ), rest1)

def parseExpDigits (neg : Bool) (r2 : List Char) : Option (ℤ × List Char) :=
  let ds := r2.takeWhile Char.isDigit
  if ds = [] then none
  else some ((if neg then -(digitsToNat ds : ℤ) else (digitsToNat ds : ℤ)),
    r2.dropWhile Char.isDigit)

def parseExpBody (r : List Char) : Option (ℤ × List Char) :=
  match r with
  | '-' :: r2 => parseExpDigits true r2
  | '+' :: r2 => parseExpDigits false r2
  | _ => parseExpDigits false r

/-- Parse an optional exponent `([eE][+-]?digits+)?`; fails (returning
`none`) only when an `e`/`E` is present but malformed. -/
def parseExpPart (cs : List Char) : Option (ℤ × List Char) :=
  match cs with
  | 'e' :: r => parseExpBody r
  | 'E' :: r => parseExpBody r
  | _ => some (0, cs)

/-- The part of `Number(string)` after the optional sign: either the
`Infinity` literal or a decimal literal with optional exponent, consuming
the whole input. -/
def jsNumCore (neg : Bool) (cs2 : List Char) : JNum :=
  if cs2 = "Infinity".data then .inf neg
  else
    match parseDecBody cs2 with
    | none => .nan
    | some (q, rest) =>
      match parseExpPart rest with
      | none => .nan
      | some (e, rest2) =>
        if rest2 = [] then .fin ((if neg then -q else q) * (10 : ℚ) ^ e)
        else .nan

/-- `Number(string)` on the trimmed character list.  (Hex/octal/binary
literals of JS are not modelled; no input of the verified paths uses
them.) -/
def jsNumOfTrimmed (cs : List Char) : JNum :=
  if cs = [] then .fin 0
  else
    match cs with
    | '-' :: r => jsNumCore true r
    | '+' :: r => jsNumCore false r
    | _ => jsNumCore false cs

def jsTrim (s : String) : List Char :=
  ((s.data.dropWhile isWsJs).reverse.dropWhile isWsJs).reverse

def jsNumOfString (s : String) : JNum := jsNumOfTrimmed (jsTrim s)

mutual
/-- JS `String(v)` coercion. -/
def jsToString : JVal → String
  | .undefined => "undefined"
  | .null => "null"
  | .bool b => if b then "true" else "false"
  | .num n => jsNumToString n
  | .str s => s
  | .arr xs => String.intercalate "," (arrElemStrings xs)
  | .obj _ => "[object Object]"

/-- Array elements render via `Array.prototype.join`: `null` and
`undefined` render as the empty string. -/
def arrElemStrings : List JVal → List String
  | [] => []
  | x :: t =>
    (match x with
     | .null => ""
     | .undefined => ""
     | v => jsToString v) :: arrElemStrings t
end

/-- JS `Number(v)` coercion. -/
def jsToNumber : JVal → JNum
  | .undefined => .nan
  | .null => .fin 0
  | .bool b => .fin (if b then 1 else 0)
  | .num n => n
  | .str s => jsNumOfString s
  | .arr xs => jsNumOfString (jsToString (.arr xs))
  | .obj _ => .nan

/-- IEEE-style strict equality on numbers: NaN is not equal to anything,
including itself (this is what makes `Number(h) !== Number(l)` true for two
non-numeric strings in the source). -/
def numStrictEq : JNum → JNum → Bool
  | .nan, _ => false
  | _, .nan => false
  | .inf a, .inf b => a = b
  | .fin p, .fin q => p = q
  | _, _ => false

/-- JS `===` restricted to the primitive values compared by
`detectChanges` (record fields there are null or strings/numbers by
invariant); distinct compound values compare unequal, matching reference
equality between a stored snapshot and a freshly extracted record. -/
def strictEqJV : JVal → JVal → Bool
  | .undefined, .undefined => true
  | .null, .null => true
  | .bool a, .bool b => a = b
  | .num a, .num b => numStrictEq a b
  | .str a, .str b => a = b
  | _, _ => false

/-- Strict equality on `number|null` (the type of `price.current` after the
`?? null` normalization in `detectChanges`). -/
def strictEqOptNum : Option JNum → Option JNum → Bool
  | none, none => true
  | some a, some b => numStrictEq a b
  | _, _ => false

/-! ## String scanning helpers (models of the source's regexes) -/

/-- Case-insensitive substring test (`/needle/i.test(hay)` for a literal
needle, and `String.prototype.includes` after `toLowerCase()`); the needle
is supplied already lower-cased. -/
def containsSubLc (hay : List Char) (needleLc : List Char) : Bool :=
  match hay with
  | [] => needleLc.isEmpty
  | _ :: t => needleLc.isPrefixOf (hay.map Char.toLower) || containsSubLc t needleLc

def containsSubLcS (hay : String) (needleLc : String) : Bool :=
  containsSubLc hay.data needleLc.data

/-- Leftmost-match regex scan: try the pattern at each start position in
order, as a JS regex engine does. -/
def scanFirst {α : Type} (f : List Char → Option α) : List Char → Option α
  | [] => none
  | c :: t =>
    match f (c :: t) with
    | some a => some a
    | none => scanFirst f t

/-- Case-insensitive literal prefix test (pattern supplied lower-cased). -/
def ciPrefix (patLc : List Char) (l : List Char) : Bool :=
  patLc.isPrefixOf (l.map Char.toLower)

/-- `/product\/([^\/\?\#]+)/i` applied to a URL: first occurrence of
`product/` (case-insensitive) followed by at least one character other than
`/`, `?`, `#`; the capture is that character run. -/
def matchProductSeg (url : String) : Option String :=
  scanFirst (fun l =>
    if ciPrefix "product/".data l then
      let seg := (l.drop 8).takeWhile (fun c => ¬ (c = '/' ∨ c = '?' ∨ c = '#'))
      if seg = [] then none else some (String.mk seg)
    else none) url.data

/-- `/\/@([^\/\?\#]+)/` applied to a seller link href. -/
def matchSellerHandle (href : String) : Option String :=
  scanFirst (fun l =>
    if "/@".data.isPrefixOf l then
      let seg := (l.drop 2).takeWhile (fun c => ¬ (c = '/' ∨ c = '?' ∨ c = '#'))
      if seg = [] then none else some (String.mk seg)
    else none) href.data

/-- `/\/@([^\/]+)\/video\/(\d+)/` applied to an absolute video URL;
returns the creator handle capture when the pattern matches. -/
def matchVideoCreator (abs : String) : Option String :=
  scanFirst (fun l =>
    if "/@".data.isPrefixOf l then
      let handle := (l.drop 2).takeWhile (fun c => c ≠ '/')
      if handle = [] then none
      else
        let r2 := (l.drop 2).drop handle.length
        if "/video/".data.isPrefixOf r2 then
          let ds := (r2.drop 7).takeWhile Char.isDigit
          if ds = [] then none else some (String.mk handle)
        else none
    else none) abs.data

/-- `/"FIELD"\s*:\s*"([^"]{min,max})"/i` applied to serialized JSON: the
quoted-field pattern extraction used on the hydration payload and the state
blob (field name supplied lower-cased; `max = none` means unbounded,
modelling `+`). -/
def scanQuotedField (fieldLc : String) (minLen : Nat) (maxLen : Option Nat)
    (s : String) : Option String :=
  scanFirst (fun l =>
    if ciPrefix ('"' :: fieldLc.data ++ ['"']) l then
      let r1 := (l.drop (fieldLc.length + 2)).dropWhile isWsJs
      match r1 with
      | ':' :: r2 =>
        match r2.dropWhile isWsJs with
        | '"' :: r3 =>
          let run := r3.takeWhile (fun c => c ≠ '"')
          if (decide (run.length ≥ minLen) &&
              decide (run.length ≥ 1) &&
              (match maxLen with | none => true | some m => decide (run.length ≤ m)) &&
              !(r3.drop run.length).isEmpty) then
            some (String.mk run)
          else none
        | _ => none
      | _ => none
    else none) s.data

/-! ## JSON.stringify model -/

def hexDigitChar (n : Nat) : Char :=
  if n < 10 then Char.ofNat ('0'.toNat + n) else Char.ofNat ('a'.toNat + (n - 10))

def quoteJsonChar (c : Char) : String :=
  if c = '"' then "\\\""
  else if c = '\\' then "\\\\"
  else if c = '\n' then "\\n"
  else if c = '\r' then "\\r"
  else if c = '\t' then "\\t"
  else if c.toNat < 32 then
    "\\u00" ++ String.mk [hexDigitChar (c.toNat / 16), hexDigitChar (c.toNat % 16)]
  else String.mk [c]

def quoteJson (s : String) : String :=
  "\"" ++ String.join (s.data.map quoteJsonChar) ++ "\""

mutual
/-- `JSON.stringify` on the embedded values; `none` models `undefined`
(omitted in objects, rendered `null` in arrays); NaN and infinities render
as `null`. -/
def stringifyV : JVal → Option String
  | .undefined => none
  | .null => some "null"
  | .bool b => some (if b then "true" else "false")
  | .num .nan => some "null"
  | .num (.inf _) => some "null"
  | .num (.fin q) => some (jsNumToString (.fin q))
  | .str s => some (quoteJson s)
  | .arr xs => some ("[" ++ String.intercalate "," (stringifyArr xs) ++ "]")
  | .obj fs => some ("\x7b" ++ String.intercalate "," (stringifyObj fs) ++ "\x7d")

def stringifyArr : List JVal → List String
  | [] => []
  | x :: t => ((stringifyV x).getD "null") :: stringifyArr t

def stringifyObj : List (String × JVal) → List String
  | [] => []
  | (k, v) :: t =>
    match stringifyV v with
    | none => stringifyObj t
    | some s => (quoteJson k ++ ":" ++ s) :: stringifyObj t
end

def jsonStringify (v : JVal) : String := (stringifyV v).getD "undefined"

/-! ## SHA-1 (the `crypto` hash used for fallback product identifiers) -/

def utf8BytesOfChar (c : Char) : List Nat :=
  let n := c.toNat
  if n < 0x80 then [n]
  else if n < 0x800 then [0xc0 + n / 64, 0x80 + n % 64]
  else if n < 0x10000 then [0xe0 + n / 4096, 0x80 + n / 64 % 64, 0x80 + n % 64]
  else [0xf0 + n / 262144, 0x80 + n / 4096 % 64, 0x80 + n / 64 % 64, 0x80 + n % 64]

def utf8Bytes (s : String) : List Nat := s.data.flatMap utf8BytesOfChar

def w32 (x : Nat) : Nat := x % 4294967296

def rotl32 (n x : Nat) : Nat := w32 (x * 2 ^ n + x / 2 ^ (32 - n))

def xor32 (a b : Nat) : Nat := a ^^^ b

/-- SHA-1 message padding: `0x80`, zeros to 56 mod 64, then the bit length
as a 64-bit big-endian integer. -/
def sha1pad (msg : List Nat) : List Nat :=
  let ml := msg.length * 8
  let zeros := (64 + 56 - (msg.length + 1) % 64) % 64
  msg ++ [0x80] ++ List.replicate zeros 0 ++
    (List.range 8).map (fun i => ml / 2 ^ (8 * (7 - i)) % 256)

/-- Big-endian 32-bit words of a 64-byte chunk. -/
def chunkWords (chunk : List Nat) : List Nat :=
  (List.range 16).map (fun i =>
    (chunk.getD (4 * i) 0) * 16777216 + (chunk.getD (4 * i + 1) 0) * 65536 +
    (chunk.getD (4 * i + 2) 0) * 256 + chunk.getD (4 * i + 3) 0)

/-- Word schedule extension to 80 words. -/
def sha1extend (ws : List Nat) : List Nat :=
  (List.range 64).foldl
    (fun acc _ =>
      let n := acc.length
      acc ++ [rotl32 1 (xor32 (xor32 (acc.getD (n - 3) 0) (acc.getD (n - 8) 0))
        (xor32 (acc.getD (n - 14) 0) (acc.getD (n - 16) 0)))])
    ws

def sha1f (t b c d : Nat) : Nat :=
  if t < 20 then (b &&& c) ||| ((4294967295 - b) &&& d)
  else if t < 40 then xor32 (xor32 b c) d
  else if t < 60 then (b &&& c) ||| (b &&& d) ||| (c &&& d)
  else xor32 (xor32 b c) d

def sha1k (t : Nat) : Nat :=
  if t < 20 then 0x5A827999
  else if t < 40 then 0x6ED9EBA1
  else if t < 60 then 0x8F1BBCDC
  else 0xCA62C1D6

/-- One SHA-1 compression round over the state `(a, b, c, d, e)`. -/
def sha1round (w : List Nat) (st : Nat × Nat × Nat × Nat × Nat) (t : Nat) :
    Nat × Nat × Nat × Nat × Nat :=
  let (a, b, c, d, e) := st
  let tmp := w32 (rotl32 5 a + sha1f t b c d + e + sha1k t + w.getD t 0)
  (tmp, a, rotl32 30 b, c, d)

def sha1chunk (h : Nat × Nat × Nat × Nat × Nat) (chunk : List Nat) :
    Nat × Nat × Nat × Nat × Nat :=
  let w := sha1extend (chunkWords chunk)
  let (a, b, c, d, e) := (List.range 80).foldl (sha1round w) h
  (w32 (h.1 + a), w32 (h.2.1 + b), w32 (h.2.2.1 + c), w32 (h.2.2.2.1 + d),
    w32 (h.2.2.2.2 + e))

def chunks64 (l : List Nat) : List (List Nat) :=
  if h : l = [] then []
  else (l.take 64) :: chunks64 (l.drop 64)
termination_by l.length
decreasing_by
  have hl : 0 < l.length := List.length_pos.mpr h
  simp only [List.length_drop]
  omega

def sha1digestWords (msg : List Nat) : Nat × Nat × Nat × Nat × Nat :=
  (chunks64 (sha1pad msg)).foldl sha1chunk
    (0x67452301, 0xEFCDAB89, 0x98BADCFE, 0x10325476, 0xC3D2E1F0)

/-- A 32-bit word as exactly 8 lowercase hex characters. -/
def hex8 (x : Nat) : List Char :=
  (List.range 8).map (fun i => hexDigitChar (x / 16 ^ (7 - i) % 16))

/-- `crypto.createHash('sha1').update(String(s)).digest('hex')`: the
40-character lowercase hex SHA-1 digest of the UTF-8 bytes of a string. -/
def sha1hex (s : String) : String :=
  let h := sha1digestWords (utf8Bytes s)
  String.mk (hex8 h.1 ++ hex8 h.2.1 ++ hex8 h.2.2.1 ++ hex8 h.2.2.2.1 ++
    hex8 h.2.2.2.2)

/-- `.slice(0, n)` on a string. -/
def sliceStr (s : String) (n : Nat) : String := String.mk (s.data.take n)

/-! ## Page state and record model -/

/-- Case-sensitive substring test (CSS `[attr*="..."]` selectors). -/
def containsSubCs (hay : List Char) (needle : List Char) : Bool :=
  match hay with
  | [] => needle.isEmpty
  | _ :: t => needle.isPrefixOf hay || containsSubCs t needle

/-- JS `s.startsWith(pre)` (kernel-reducible list version). -/
def strStartsWith (s pre : String) : Bool := pre.data.isPrefixOf s.data

/-- First-occurrence-preserving dedupe (`Array.from(new Set(...))`). -/
def dedupeFirst : List String → List String :=
  go []
where
  go (seen : List String) : List String → List String
    | [] => []
    | s :: t => if s ∈ seen then go seen t else s :: go (s :: seen) t

/-- One creator cross-reference row (likes/comments/shares are part of the
schema but the pipeline writes them as literal `null`). -/
structure Creator where
  creator : String
  video_url : String
  likes : JVal
  comments : JVal
  shares : JVal

/-- The `out` accumulator of the in-page extraction function
(main.js:63-74); fields hold raw JS values. -/
structure POut where
  product_id : JVal
  title : JVal
  description : JVal
  seller_handle : JVal
  seller_name : JVal
  seller_url : JVal
  price_current : JVal
  price_original : JVal
  price_currency : JVal
  availability : JVal
  rating : JVal
  review_count : JVal
  images : List JVal
  creators : List Creator

def initOut : POut :=
  ⟨.null, .null, .null, .null, .null, .null, .null, .null, .null, .null,
   .null, .null, [], []⟩

/-- The embedded state and DOM of a rendered page, as observed by the
in-page extraction script: each `ld+json` script block as its parse result
(`none` = malformed JSON, swallowed by `safeJsonParse`), the hydration
payload (`#__NEXT_DATA__` script or `window.__NEXT_DATA__`), the Apollo
cache and SIGI state globals (`none` = absent), DOM fallback sources, the
`href` attributes of all anchors in document order, and `location.origin`. -/
structure PageState where
  ldScripts : List (Option JVal)
  nextData : Option JVal
  apollo : Option JVal
  sigi : Option JVal
  domH1 : Option String
  domDesc : Option String
  domImgSrcs : List String
  domBodyText : String
  anchors : List String
  origin : String

/-- `item['@type'] === 'Product' || (Array.isArray(item['@type']) &&
item['@type'].includes('Product'))`. -/
def isProductType (item : JVal) : Bool :=
  let t := jsGetD item "@type"
  strictEqJV t (.str "Product") ||
  (match t with
   | .arr xs => xs.any (fun x => strictEqJV x (.str "Product"))
   | _ => false)

/-- The JSON-LD scan (main.js:85-99): first parseable script block
containing a Product-typed item, first such item within it. -/
def findLdProduct : List (Option JVal) → Option JVal
  | [] => none
  | none :: rest => findLdProduct rest
  | some j :: rest =>
    if ¬ truthy j then findLdProduct rest
    else
      let candidates := match j with | .arr xs => xs | _ => [j]
      match candidates.find?
        (fun item => truthy item && isObjLike item && isProductType item) with
      | some p => some p
      | none => findLdProduct rest

/-- Offer availability normalization (main.js:116-120/129-133). -/
def availFromString (cur : JVal) (a : JVal) : JVal :=
  match a with
  | .str s =>
    if containsSubLcS s "instock" then .str "IN_STOCK"
    else if containsSubLcS s "outofstock" then .str "OUT_OF_STOCK"
    else cur
  | _ => cur

/-- Reading one offer object (both branches of main.js:107-134 perform the
same field reads on `primary` resp. `offers`).  Note the highPrice branch
assigns `Number(primary.highPrice)` with no `|| null` guard. -/
def applyOffer (out : POut) (primary : JVal) : POut :=
  let out1 := { out with
    price_current := jsOr (.num (jsToNumber (jsGetD primary "price"))) .null,
    price_currency := jsOr (jsGetD primary "priceCurrency") .null }
  let ps := jsGetD primary "priceSpecification"
  let out2 :=
    if truthy ps && truthy (jsGetD ps "price") then
      { out1 with price_original := jsOr (.num (jsToNumber (jsGetD ps "price"))) .null }
    else if truthy (jsGetD primary "highPrice") && truthy (jsGetD primary "lowPrice") &&
        !(numStrictEq (jsToNumber (jsGetD primary "highPrice"))
          (jsToNumber (jsGetD primary "lowPrice"))) then
      { out1 with price_original := .num (jsToNumber (jsGetD primary "highPrice")) }
    else out1
  let avail := jsOr (jsGetD primary "availability")
    (jsOr (jsGetD primary "availabilityStarts") .null)
  { out2 with availability := availFromString out2.availability avail }

/-- `offers = productLD.offers || productLD.aggregateOffer || null`, then
the array/object split.  `const primary = offers[0]` followed by the
unguarded `primary.price` throws a TypeError when the offers array is
empty or starts with `null` — modelled by `.error ()`. -/
def processOffers (out : POut) (prod : JVal) : Except Unit POut :=
  let offers := jsOr (jsGetD prod "offers") (jsOr (jsGetD prod "aggregateOffer") .null)
  if truthy offers then
    match offers with
    | .arr xs =>
      match xs.headD .undefined with
      | .undefined => .error ()
      | .null => .error ()
      | primary => .ok (applyOffer out primary)
    | o => .ok (applyOffer out o)
  else .ok out

def applyLdImages (out : POut) (prod : JVal) : POut :=
  let img := jsGetD prod "image"
  if truthy img then
    match img with
    | .arr xs => { out with images := xs }
    | .str s => { out with images := [.str s] }
    | _ => out
  else out

def applyLdBrand (out : POut) (prod : JVal) : POut :=
  let b := jsGetD prod "brand"
  if truthy b then
    match b with
    | .str s => { out with seller_name := .str s }
    | _ =>
      if truthy (jsGetD b "name") then { out with seller_name := jsGetD b "name" }
      else out
  else out

def applyLdSeller (out : POut) (prod : JVal) : POut :=
  let s := jsGetD prod "seller"
  if truthy s then
    match s with
    | .str str => { out with seller_name := jsOr out.seller_name (.str str) }
    | _ =>
      if truthy (jsGetD s "name") then
        { out with seller_name := jsOr out.seller_name (jsGetD s "name") }
      else out
  else out

def applyLdRating (out : POut) (prod : JVal) : POut :=
  let ar := jsGetD prod "aggregateRating"
  if truthy ar then
    { out with
      rating := jsOr (.num (jsToNumber (jsGetD ar "ratingValue"))) .null,
      review_count := jsOr (.num (jsToNumber
        (jsOr (jsGetD ar "reviewCount") (jsGetD ar "ratingCount")))) .null }
  else out

def applyLdSku (out : POut) (prod : JVal) : POut :=
  let out1 :=
    if truthy (jsGetD prod "sku") then
      { out with product_id := .str (jsToString (jsGetD prod "sku")) }
    else out
  if !(truthy out1.product_id) && truthy (jsGetD prod "productID") then
    { out1 with product_id := .str (jsToString (jsGetD prod "productID")) }
  else out1

/-- The whole JSON-LD block (main.js:101-161). -/
def applyLd (out : POut) (prod : JVal) : Except Unit POut := do
  let out1 := { out with
    title := jsOr out.title (jsOr (jsGetD prod "name") .null),
    description := jsOr out.description (jsOr (jsGetD prod "description") .null) }
  let out2 ← processOffers out1 prod
  .ok (applyLdSku (applyLdRating (applyLdSeller (applyLdBrand
    (applyLdImages out2 prod) prod) prod) prod) prod)

/-- The NEXT_DATA block (main.js:163-177): serialize and pattern-extract a
quoted productId and a quoted 3-200 char title. -/
def applyNext (out : POut) (nextData : Option JVal) : POut :=
  let nd := match nextData with | some v => v | none => .null
  if truthy nd && truthy (jsGetD nd "props") then
    let s := jsonStringify nd
    let out1 :=
      match scanQuotedField "productid" 1 none s with
      | some pid => { out with product_id := jsOr out.product_id (.str pid) }
      | none => out
    match scanQuotedField "title" 3 (some 200) s with
    | some t => if !(truthy out1.title) then { out1 with title := .str t } else out1
    | none => out1
  else out

/-- `v.images.map((i) => (i.url || i.src || i))`: throws on a `null` or
`undefined` element. -/
def imgMapElem (i : JVal) : Except Unit JVal :=
  match i with
  | .null => .error ()
  | .undefined => .error ()
  | v => .ok (jsOr (jsGetD v "url") (jsOr (jsGetD v "src") v))

/-- Pure field updates of one Apollo Product entry (main.js:186-199):
title/description/product_id, the price block, and the seller block. -/
def apolloCore (out : POut) (v : JVal) : POut :=
  let out1 := { out with
    title := jsOr out.title (jsOr (jsGetD v "title") (jsOr (jsGetD v "name") .null)),
    description := jsOr out.description (jsOr (jsGetD v "description") .null),
    product_id := jsOr out.product_id
      (jsOr (jsGetD v "id") (jsOr (jsGetD v "productId") .null)) }
  let p := jsGetD v "price"
  let out2 :=
    if truthy p then
      { out1 with
        price_current := jsOr out1.price_current
          (jsOr (.num (jsToNumber (jsOr (jsGetD p "current") p))) out1.price_current),
        price_original := jsOr out1.price_original
          (jsOr (.num (jsToNumber (jsGetD p "original"))) out1.price_original),
        price_currency := jsOr out1.price_currency
          (jsOr (jsGetD p "currency") out1.price_currency) }
    else out1
  let so := jsOr (jsGetD v "seller") (jsGetD v "shop")
  if truthy so then
    { out2 with
      seller_name := jsOr out2.seller_name (jsOr (jsGetD so "name") .null),
      seller_handle := jsOr out2.seller_handle
        (jsOr (jsGetD so "uniqueId") (jsOr (jsGetD so "handle") .null)),
      seller_url := jsOr out2.seller_url (jsOr (jsGetD so "url") .null) }
  else out2

/-- `Array.prototype.map` with a callback that can throw: elements are
visited left to right and the first throw propagates. -/
def mapImgs : List JVal → Except Unit (List JVal)
  | [] => .ok []
  | x :: t => do
    let v ← imgMapElem x
    let r ← mapImgs t
    .ok (v :: r)

/-- The images block of one Apollo Product entry (main.js:200-202):
`if (Array.isArray(v.images) && v.images.length) out.images =
out.images.length ? out.images : v.images.map(...)`; the map throws on a
nullish element. -/
def apolloImages (out : POut) (v : JVal) : Except Unit POut :=
  match jsGetD v "images" with
  | .arr xs =>
    if xs.length ≠ 0 then
      if out.images.length ≠ 0 then .ok out
      else do
        let mapped ← mapImgs xs
        .ok { out with images := mapped }
    else .ok out
  | _ => .ok out

/-- `if (v.stockStatus) { /out/i → OUT_OF_STOCK else /in/i → IN_STOCK }`
(main.js:203-206). -/
def apolloStock (o : POut) (v : JVal) : POut :=
  let ss := jsGetD v "stockStatus"
  if truthy ss then
    if containsSubLcS (jsToString ss) "out" then
      { o with availability := .str "OUT_OF_STOCK" }
    else if containsSubLcS (jsToString ss) "in" then
      { o with availability := .str "IN_STOCK" }
    else o
  else o

/-- One entry of the Apollo cache scan (main.js:183-209). -/
def applyApolloEntry (out : POut) (kv : String × JVal) : Except Unit POut :=
  let v := kv.2
  if truthy v && isObjLike v then
    if truthy (jsGetD v "__typename") &&
       containsSubLcS (jsToString (jsGetD v "__typename")) "product" then do
      let out3 ← apolloImages (apolloCore out v) v
      .ok (apolloStock out3 v)
    else .ok out
  else .ok out

/-- `window.__APOLLO_STATE__ || null` guarded scan over `Object.entries`. -/
def applyApollo (out : POut) (apollo : Option JVal) : Except Unit POut :=
  let a := match apollo with | some v => v | none => .null
  if truthy a && isObjLike a then (entriesOf a).foldlM applyApolloEntry out
  else .ok out

/-- The SIGI_STATE block (main.js:212-223); its `try` block cannot fail in
the model (serialization and matching are total), matching the source's
swallow-all `catch`. -/
def applySigi (out : POut) (sigi : Option JVal) : POut :=
  let sg := match sigi with | some v => v | none => .null
  if truthy sg && isObjLike sg then
    match scanQuotedField "productid" 1 none (jsonStringify sg) with
    | some pid => { out with product_id := jsOr out.product_id (.str pid) }
    | none => out
  else out

/-- DOM title fallback (main.js:226-229). -/
def domTitle (out : POut) (pg : PageState) : POut :=
  if !(truthy out.title) then
    { out with title :=
      match pg.domH1 with
      | some t => .str (String.mk (jsTrim t))
      | none => .null }
  else out

/-- DOM description fallback (main.js:230-233). -/
def domDesc (out : POut) (pg : PageState) : POut :=
  if !(truthy out.description) then
    match pg.domDesc with
    | some d => { out with description := .str (String.mk (jsTrim d)) }
    | none => out
  else out

/-- DOM images fallback (main.js:234-239). -/
def domImages (out : POut) (pg : PageState) : POut :=
  if out.images.length = 0 then
    { out with images :=
      ((dedupeFirst (pg.domImgSrcs.filter
        (fun u => u ≠ "" && !(strStartsWith u "data:")))).take 10).map JVal.str }
  else out

/-- DOM availability fallback from whole-page text (main.js:240-244). -/
def domAvail (out : POut) (pg : PageState) : POut :=
  if !(truthy out.availability) then
    if containsSubLcS pg.domBodyText "out of stock" then
      { out with availability := .str "OUT_OF_STOCK" }
    else if containsSubLcS pg.domBodyText "in stock" ||
        containsSubLcS pg.domBodyText "available" then
      { out with availability := .str "IN_STOCK" }
    else out
  else out

/-- DOM seller handle fallback from the first `a[href*="/@"]` anchor
(main.js:246-256). -/
def domSeller (out : POut) (pg : PageState) : POut :=
  if !(truthy out.seller_handle) then
    match pg.anchors.find? (fun h => containsSubCs h.data "/@".data) with
    | some href =>
      match matchSellerHandle href with
      | some hdl =>
        { out with
          seller_handle := .str hdl,
          seller_url := jsOr out.seller_url
            (.str (if strStartsWith href "http" then href else pg.origin ++ href)) }
      | none => out
    | none => out
  else out

/-- DOM fallbacks (main.js:225-256), in source order. -/
def applyDom (out : POut) (pg : PageState) : POut :=
  domSeller (domAvail (domImages (domDesc (domTitle out pg) pg) pg) pg) pg

/-- The creator cross-reference loop (main.js:259-285): anchors whose href
contains `/video/`, resolved to absolute URLs and matched against
`/\/@([^\/]+)\/video\/(\d+)/`; every row is built with `likes: null,
comments: null, shares: null`. -/
def buildCreators (anchors : List String) (origin : String) : List Creator :=
  (anchors.filter (fun h => containsSubCs h.data "/video/".data)).filterMap
    (fun href =>
      let abs := if strStartsWith href "http" then href else origin ++ href
      match matchVideoCreator abs with
      | some handle => some ⟨"@" ++ handle, abs, .null, .null, .null⟩
      | none => none)

/-- Set-based dedupe by `video_url`, preserving first occurrences. -/
def dedupeByVideoUrl : List Creator → List String → List Creator
  | [], _ => []
  | c :: t, seen =>
    if c.video_url ∈ seen then dedupeByVideoUrl t seen
    else c :: dedupeByVideoUrl t (c.video_url :: seen)

def applyCreators (out : POut) (pg : PageState) : POut :=
  { out with creators := (dedupeByVideoUrl (buildCreators pg.anchors pg.origin) []).take 10 }

/-- The whole in-page `page.evaluate` function of `extractProduct`
(main.js:62-288).  Steps in source order; a thrown TypeError anywhere
rejects the evaluation and aborts the extraction. -/
def ldStage (pg : PageState) : Except Unit POut :=
  match findLdProduct pg.ldScripts with
  | some prod => applyLd initOut prod
  | none => .ok initOut

def extractInner (pg : PageState) : Except Unit POut := do
  let out1 ← ldStage pg
  let out2 := applyNext out1 pg.nextData
  let out3 ← applyApollo out2 pg.apollo
  let out4 := applySigi out3 pg.sigi
  let out5 := applyDom out4 pg
  .ok (applyCreators out5 pg)

/-- The change set attached to each record: `{first_seen?: true, price?:
{from, to}, availability?: {from, to}}`. -/
structure ChangeSet where
  first_seen : Bool := false
  price : Option (Option JNum × Option JNum) := none
  availability : Option (JVal × JVal) := none

/-- One output row (the "Final shape" of main.js:299-323).  `none` in the
numeric fields models `null`; the screenshot step (an external side
artifact) is not observed by any claim and leaves the key `null`. -/
structure ProductRecord where
  product_id : String
  url : String
  region : Option String
  captured_at : String
  title : JVal
  description : JVal
  seller_handle : JVal
  seller_name : JVal
  seller_url : JVal
  price_current : Option JNum
  price_original : Option JNum
  price_currency : JVal
  availability : JVal
  rating : Option JNum
  review_count : Option JNum
  images : List JVal
  creators : List Creator
  screenshot_key : JVal
  detected_changes : ChangeSet

/-- `x != null ? Number(x) : null`. -/
def finalizeNum (v : JVal) : Option JNum :=
  if isNullish v then none else some (jsToNumber v)

/-- productId normalization and final record shape (main.js:290-323);
`now` stands for `new Date().toISOString()`. -/
def finalize (data : POut) (requestUrl region now : String) : ProductRecord :=
  let pid : String :=
    if truthy data.product_id then jsToString data.product_id
    else
      match matchProductSeg requestUrl with
      | some seg => seg
      | none => sliceStr (sha1hex requestUrl) 16
  { product_id := pid
    url := requestUrl
    region := if region = "" then none else some region
    captured_at := now
    title := jsOr data.title .null
    description := jsOr data.description .null
    seller_handle := jsOr data.seller_handle .null
    seller_name := jsOr data.seller_name .null
    seller_url := jsOr data.seller_url .null
    price_current := finalizeNum data.price_current
    price_original := finalizeNum data.price_original
    price_currency := jsOr data.price_currency .null
    availability := jsOr data.availability .null
    rating := finalizeNum data.rating
    review_count := finalizeNum data.review_count
    images := data.images.take 20
    creators := data.creators
    screenshot_key := .null
    detected_changes := {} }

def extractProduct (pg : PageState) (requestUrl region now : String) :
    Except Unit ProductRecord :=
  (extractInner pg).map (fun data => finalize data requestUrl region now)

/-- The diffing function (main.js:329-351). -/
def detectChanges (prev : Option ProductRecord) (curr : ProductRecord) : ChangeSet :=
  match prev with
  | none => { first_seen := true }
  | some p =>
    let prevPrice := p.price_current
    let currPrice := curr.price_current
    let priceCh :=
      if !(strictEqOptNum prevPrice currPrice) && currPrice.isSome then
        some (prevPrice, currPrice)
      else none
    let prevAvail := normNullish p.availability
    let currAvail := normNullish curr.availability
    let availCh :=
      if !(strictEqJV prevAvail currAvail) && !(isNullish currAvail) then
        some (prevAvail, currAvail)
      else none
    { first_seen := false, price := priceCh, availability := availCh }

/-! ## Notification dispatcher and request handler -/

structure NotifyCfg where
  webhookUrl : JVal
  slackWebhookUrl : JVal

inductive SinkKind where
  | webhook : SinkKind
  | slack : SinkKind
deriving DecidableEq

/-- `item.detected_changes && (price || availability || first_seen)`. -/
def hasChangeB (dc : ChangeSet) : Bool :=
  dc.price.isSome || dc.availability.isSome || dc.first_seen

/-- One `try { if (url) await gotScraping(...) } catch (e) { log.warning }`
block (main.js:375-387 and 389-401).  `post` gives the transport outcome
per sink; a thrown delivery error is caught and recorded as a failed
attempt, never propagated.  (The human-readable summary string passed to
the chat sink is not modelled; no claim observes its content.) -/
def attemptSink (kind : SinkKind) (url : JVal) (post : JVal → Except String Unit) :
    List (SinkKind × JVal × Bool) :=
  if truthy url then
    match post url with
    | .ok _ => [(kind, url, true)]
    | .error _ => [(kind, url, false)]
  else []

/-- `sendNotifications` (main.js:356-402): returns the attempted
deliveries; `.error` would model an uncaught exception escaping into the
crawl step. -/
def sendNotifications (cfg : Option NotifyCfg) (item : ProductRecord)
    (post : JVal → Except String Unit) :
    Except Unit (List (SinkKind × JVal × Bool)) :=
  match cfg with
  | none => .ok []
  | some c =>
    if !(hasChangeB item.detected_changes) then .ok []
    else .ok (attemptSink .webhook c.webhookUrl post ++
      attemptSink .slack c.slackWebhookUrl post)

/-- `/shop\.tiktok\.com\/product\//i.test(abs)`. -/
def testShopHost (abs : String) : Bool :=
  containsSubLc abs.data "shop.tiktok.com/product/".data

/-- `/\/product\/[A-Za-z0-9\-\_]+/i.test(abs)`. -/
def testProductPath (abs : String) : Bool :=
  (scanFirst (fun l =>
    if ciPrefix "/product/".data l then
      match (l.drop 9).head? with
      | some c => if c.isAlphanum || c = '-' || c = '_' then some () else none
      | none => none
    else none) abs.data).isSome

/-- `collectProductLinks` page evaluation (main.js:411-427): absolutize,
keep product-shaped URLs stripped at the first `?`, dedupe, cap. -/
def collectProductLinks (pg : PageState) (limit : Nat) : List String :=
  let hrefs := pg.anchors.filter (fun h => h ≠ "")
  let productLike := hrefs.filterMap (fun href =>
    let abs := if strStartsWith href "http" then href else pg.origin ++ href
    if testShopHost abs || testProductPath abs then
      some (String.mk (abs.data.takeWhile (fun c => c ≠ '?')))
    else none)
  (dedupeFirst productLike).take limit

/-- The PRODUCT branch of the request handler (main.js:543-582): extract,
read the previous snapshot, diff, commit the new snapshot (unconditional
per-key overwrite), dispatch notifications.  The key/value store is a
function with read-after-write consistency, as the spec assumes of the
storage collaborator.  The optional screenshot step is external and not
observed by any claim. -/
def handleProduct (cfg : Option NotifyCfg) (post : JVal → Except String Unit)
    (store : String → Option ProductRecord) (pg : PageState)
    (requestUrl region now : String) :
    Except Unit (ProductRecord × (String → Option ProductRecord) ×
      List (SinkKind × JVal × Bool)) := do
  let product ← extractProduct pg requestUrl region now
  let snapshotKey := "product_" ++ product.product_id
  let prev := store snapshotKey
  let detected := detectChanges prev product
  let product2 := { product with detected_changes := detected }
  let store2 := fun k => if k = snapshotKey then some product2 else store k
  let attempts ← sendNotifications cfg product2 post
  .ok (product2, store2, attempts)

/-! ## Invariants of the extraction output

`price.current` in the accumulator is only ever written through
`Number(x) || null`-shaped expressions, so it is `null` or a truthy
number — in particular never NaN (unlike `price.original`, see the
highPrice branch).  `availability` is only ever written as `null` or a
string constant.  These invariants justify reading the strict `!==`
comparisons of `detectChanges` as plain value inequality. -/

def priceCurOkV (v : JVal) : Prop :=
  v = .null ∨ ∃ n, v = .num n ∧ truthy (.num n) = true

def availOkV (v : JVal) : Prop :=
  v = .null ∨ ∃ s, v = .str s

lemma priceCurOkV_jsOr_num_null (n : JNum) :
    priceCurOkV (jsOr (.num n) .null) := by
  by_cases h : truthy (.num n) = true
  · exact Or.inr ⟨n, by simp [jsOr, h], h⟩
  · simp [jsOr, h, priceCurOkV]

lemma priceCurOkV_jsOr_self (v : JVal) (m : JNum) (h : priceCurOkV v) :
    priceCurOkV (jsOr v (jsOr (.num m) v)) := by
  by_cases hv : truthy v = true
  · simpa [jsOr, hv] using h
  · by_cases hm : truthy (JVal.num m) = true
    · simp only [jsOr, hv, hm, if_true, if_false]
      exact Or.inr ⟨m, rfl, hm⟩
    · simp only [jsOr, hv, hm, if_false]
      exact h

lemma availOkV_availFromString (cur a : JVal) (h : availOkV cur) :
    availOkV (availFromString cur a) := by
  unfold availFromString
  rcases a with _ | _ | b | n | s | xs | fs <;> try exact h
  by_cases h1 : containsSubLcS s "instock" = true
  · simp [h1]; exact Or.inr ⟨_, rfl⟩
  · by_cases h2 : containsSubLcS s "outofstock" = true
    · simp [h1, h2]; exact Or.inr ⟨_, rfl⟩
    · simpa [h1, h2] using h

lemma applyOffer_price_current (out : POut) (p : JVal) :
    (applyOffer out p).price_current =
      jsOr (.num (jsToNumber (jsGetD p "price"))) .null := by
  simp only [applyOffer]
  split <;> first | rfl | (split <;> rfl)

lemma applyOffer_availability (out : POut) (p : JVal) (h : availOkV out.availability) :
    availOkV (applyOffer out p).availability := by
  simp only [applyOffer]
  split <;>
    first
    | exact availOkV_availFromString _ _ h
    | (split <;> exact availOkV_availFromString _ _ h)

lemma applyOffer_rating (out : POut) (p : JVal) :
    (applyOffer out p).rating = out.rating := by
  simp only [applyOffer]
  split <;> first | rfl | (split <;> rfl)

/-- Combined accumulator invariant. -/
def accOk (o : POut) : Prop :=
  priceCurOkV o.price_current ∧ availOkV o.availability

lemma processOffers_accOk (out out' : POut) (prod : JVal)
    (h : processOffers out prod = .ok out') (ho : accOk out) : accOk out' := by
  simp only [processOffers] at h
  split at h
  · split at h
    · split at h
      · exact absurd h (by simp)
      · exact absurd h (by simp)
      · cases h
        refine ⟨?_, applyOffer_availability _ _ ho.2⟩
        rw [applyOffer_price_current]
        exact priceCurOkV_jsOr_num_null _
    · cases h
      refine ⟨?_, applyOffer_availability _ _ ho.2⟩
      rw [applyOffer_price_current]
      exact priceCurOkV_jsOr_num_null _
  · cases h
    exact ho

lemma applyLdImages_fields (out : POut) (p : JVal) :
    (applyLdImages out p).price_current = out.price_current ∧
    (applyLdImages out p).availability = out.availability ∧
    (applyLdImages out p).rating = out.rating := by
  simp only [applyLdImages]
  split <;> first | exact ⟨rfl, rfl, rfl⟩ | (split <;> exact ⟨rfl, rfl, rfl⟩)

lemma applyLdBrand_fields (out : POut) (p : JVal) :
    (applyLdBrand out p).price_current = out.price_current ∧
    (applyLdBrand out p).availability = out.availability ∧
    (applyLdBrand out p).rating = out.rating := by
  simp only [applyLdBrand]
  split <;>
    first
    | exact ⟨rfl, rfl, rfl⟩
    | (split <;> first | exact ⟨rfl, rfl, rfl⟩ | (split <;> exact ⟨rfl, rfl, rfl⟩))

lemma applyLdSeller_fields (out : POut) (p : JVal) :
    (applyLdSeller out p).price_current = out.price_current ∧
    (applyLdSeller out p).availability = out.availability ∧
    (applyLdSeller out p).rating = out.rating := by
  simp only [applyLdSeller]
  split <;>
    first
    | exact ⟨rfl, rfl, rfl⟩
    | (split <;> first | exact ⟨rfl, rfl, rfl⟩ | (split <;> exact ⟨rfl, rfl, rfl⟩))

lemma applyLdRating_fields (out : POut) (p : JVal) :
    (applyLdRating out p).price_current = out.price_current ∧
    (applyLdRating out p).availability = out.availability := by
  simp only [applyLdRating]
  split <;> exact ⟨rfl, rfl⟩

lemma applyLdRating_rating (out : POut) (p : JVal) :
    (applyLdRating out p).rating =
      if truthy (jsGetD p "aggregateRating") then
        jsOr (.num (jsToNumber (jsGetD (jsGetD p "aggregateRating") "ratingValue"))) .null
      else out.rating := by
  simp only [applyLdRating]
  split <;> simp_all

lemma applyLdSku_fields (out : POut) (p : JVal) :
    (applyLdSku out p).price_current = out.price_current ∧
    (applyLdSku out p).availability = out.availability ∧
    (applyLdSku out p).rating = out.rating := by
  simp only [applyLdSku]
  split <;> first | exact ⟨rfl, rfl, rfl⟩ | (split <;> exact ⟨rfl, rfl, rfl⟩)

lemma applyLd_accOk (out out' : POut) (prod : JVal)
    (h : applyLd out prod = .ok out') (ho : accOk out) : accOk out' := by
  simp only [applyLd, bind, Except.bind] at h
  cases hpo : processOffers { out with
      title := jsOr out.title (jsOr (jsGetD prod "name") .null),
      description := jsOr out.description (jsOr (jsGetD prod "description") .null) } prod with
  | error e => rw [hpo] at h; exact absurd h (by simp)
  | ok out2 =>
    rw [hpo] at h
    simp only at h
    cases h
    have h2 : accOk out2 := processOffers_accOk _ _ _ hpo ho
    have hi := applyLdImages_fields out2 prod
    have hb := applyLdBrand_fields (applyLdImages out2 prod) prod
    have hs := applyLdSeller_fields (applyLdBrand (applyLdImages out2 prod) prod) prod
    have hr := applyLdRating_fields
      (applyLdSeller (applyLdBrand (applyLdImages out2 prod) prod) prod) prod
    have hk := applyLdSku_fields (applyLdRating
      (applyLdSeller (applyLdBrand (applyLdImages out2 prod) prod) prod) prod) prod
    constructor
    · rw [hk.1, hr.1, hs.1, hb.1, hi.1]; exact h2.1
    · rw [hk.2.1, hr.2, hs.2.1, hb.2.1, hi.2.1]; exact h2.2

lemma applyNext_fields (out : POut) (nd : Option JVal) :
    (applyNext out nd).price_current = out.price_current ∧
    (applyNext out nd).availability = out.availability ∧
    (applyNext out nd).rating = out.rating := by
  simp only [applyNext]
  split
  · split <;> split <;> first | exact ⟨rfl, rfl, rfl⟩ | (split <;> exact ⟨rfl, rfl, rfl⟩)
  · exact ⟨rfl, rfl, rfl⟩


lemma apolloCore_fields (out : POut) (v : JVal) (ho : accOk out) :
    priceCurOkV (apolloCore out v).price_current ∧
    (apolloCore out v).availability = out.availability ∧
    (apolloCore out v).rating = out.rating := by
  simp only [apolloCore]
  split <;> split <;>
    first
    | exact ⟨priceCurOkV_jsOr_self _ _ ho.1, rfl, rfl⟩
    | exact ⟨ho.1, rfl, rfl⟩

lemma apolloImages_fields (out out' : POut) (v : JVal)
    (h : apolloImages out v = .ok out') :
    out'.price_current = out.price_current ∧
    out'.availability = out.availability ∧
    out'.rating = out.rating := by
  simp only [apolloImages, bind, Except.bind] at h
  split at h
  · split at h
    · split at h
      · cases h; exact ⟨rfl, rfl, rfl⟩
      · split at h
        · exact absurd h (by simp)
        · cases h; exact ⟨rfl, rfl, rfl⟩
    · cases h; exact ⟨rfl, rfl, rfl⟩
  · cases h; exact ⟨rfl, rfl, rfl⟩

lemma apolloStock_fields (o : POut) (v : JVal) (h : availOkV o.availability) :
    (apolloStock o v).price_current = o.price_current ∧
    availOkV (apolloStock o v).availability ∧
    (apolloStock o v).rating = o.rating := by
  simp only [apolloStock]
  split
  · split
    · exact ⟨rfl, Or.inr ⟨_, rfl⟩, rfl⟩
    · split
      · exact ⟨rfl, Or.inr ⟨_, rfl⟩, rfl⟩
      · exact ⟨rfl, h, rfl⟩
  · exact ⟨rfl, h, rfl⟩

lemma applyApolloEntry_accOk (out out' : POut) (kv : String × JVal)
    (h : applyApolloEntry out kv = .ok out') (ho : accOk out) : accOk out' := by
  simp only [applyApolloEntry, bind, Except.bind] at h
  split at h
  · split at h
    · cases hai : apolloImages (apolloCore out kv.2) kv.2 with
      | error e => rw [hai] at h; exact absurd h (by simp)
      | ok o3 =>
        rw [hai] at h
        simp only at h
        cases h
        have hc := apolloCore_fields out kv.2 ho
        have hi := apolloImages_fields _ _ _ hai
        have havail : availOkV o3.availability := by
          rw [hi.2.1, hc.2.1]; exact ho.2
        have hst := apolloStock_fields o3 kv.2 havail
        refine ⟨?_, hst.2.1⟩
        rw [hst.1, hi.1]
        exact hc.1
    · cases h; exact ho
  · cases h; exact ho

lemma foldlM_except_inv {σ α : Type} (f : σ → α → Except Unit σ) (P : σ → Prop)
    (hf : ∀ b a b', f b a = .ok b' → P b → P b') :
    ∀ (l : List α) (b b' : σ), List.foldlM f b l = .ok b' → P b → P b' := by
  intro l
  induction l with
  | nil =>
    intro b b' h hb
    simp only [List.foldlM_nil] at h
    cases h
    exact hb
  | cons a t ih =>
    intro b b' h hb
    rw [List.foldlM_cons] at h
    cases hfa : f b a with
    | error e => rw [hfa] at h; exact absurd h (by simp [bind, Except.bind])
    | ok b2 =>
      rw [hfa] at h
      simp only [bind, Except.bind] at h
      exact ih b2 b' h (hf b a b2 hfa hb)

lemma applyApollo_accOk (out out' : POut) (ap : Option JVal)
    (h : applyApollo out ap = .ok out') (ho : accOk out) : accOk out' := by
  simp only [applyApollo] at h
  split at h
  · exact foldlM_except_inv _ accOk
      (fun b a b2 hf hb => applyApolloEntry_accOk b b2 a hf hb) _ _ _ h ho
  · cases h; exact ho

lemma applySigi_fields (out : POut) (sg : Option JVal) :
    (applySigi out sg).price_current = out.price_current ∧
    (applySigi out sg).availability = out.availability ∧
    (applySigi out sg).rating = out.rating := by
  simp only [applySigi]
  split
  · split <;> exact ⟨rfl, rfl, rfl⟩
  · exact ⟨rfl, rfl, rfl⟩

lemma domTitle_fields (out : POut) (pg : PageState) :
    (domTitle out pg).price_current = out.price_current ∧
    (domTitle out pg).availability = out.availability ∧
    (domTitle out pg).rating = out.rating := by
  simp only [domTitle]
  split <;> first | exact ⟨rfl, rfl, rfl⟩ | (split <;> exact ⟨rfl, rfl, rfl⟩)

lemma domDesc_fields (out : POut) (pg : PageState) :
    (domDesc out pg).price_current = out.price_current ∧
    (domDesc out pg).availability = out.availability ∧
    (domDesc out pg).rating = out.rating := by
  simp only [domDesc]
  split <;> first | exact ⟨rfl, rfl, rfl⟩ | (split <;> exact ⟨rfl, rfl, rfl⟩)

lemma domImages_fields (out : POut) (pg : PageState) :
    (domImages out pg).price_current = out.price_current ∧
    (domImages out pg).availability = out.availability ∧
    (domImages out pg).rating = out.rating := by
  simp only [domImages]
  split <;> exact ⟨rfl, rfl, rfl⟩

lemma domAvail_fields (out : POut) (pg : PageState) (h : availOkV out.availability) :
    (domAvail out pg).price_current = out.price_current ∧
    availOkV (domAvail out pg).availability ∧
    (domAvail out pg).rating = out.rating := by
  simp only [domAvail]
  split
  · split
    · exact ⟨rfl, Or.inr ⟨_, rfl⟩, rfl⟩
    · split
      · exact ⟨rfl, Or.inr ⟨_, rfl⟩, rfl⟩
      · exact ⟨rfl, h, rfl⟩
  · exact ⟨rfl, h, rfl⟩

lemma domSeller_fields (out : POut) (pg : PageState) :
    (domSeller out pg).price_current = out.price_current ∧
    (domSeller out pg).availability = out.availability ∧
    (domSeller out pg).rating = out.rating := by
  simp only [domSeller]
  split <;>
    first
    | exact ⟨rfl, rfl, rfl⟩
    | (split <;> first | exact ⟨rfl, rfl, rfl⟩ | (split <;> exact ⟨rfl, rfl, rfl⟩))

lemma applyDom_fields (out : POut) (pg : PageState) (ho : availOkV out.availability) :
    (applyDom out pg).price_current = out.price_current ∧
    availOkV (applyDom out pg).availability ∧
    (applyDom out pg).rating = out.rating := by
  have h1 := domTitle_fields out pg
  have h2 := domDesc_fields (domTitle out pg) pg
  have h3 := domImages_fields (domDesc (domTitle out pg) pg) pg
  have h4 := domAvail_fields (domImages (domDesc (domTitle out pg) pg) pg) pg
    (by rw [h3.2.1, h2.2.1, h1.2.1]; exact ho)
  have h5 := domSeller_fields
    (domAvail (domImages (domDesc (domTitle out pg) pg) pg) pg) pg
  refine ⟨?_, ?_, ?_⟩
  · rw [applyDom, h5.1, h4.1, h3.1, h2.1, h1.1]
  · rw [applyDom, h5.2.1]; exact h4.2.1
  · rw [applyDom, h5.2.2, h4.2.2, h3.2.2, h2.2.2, h1.2.2]

lemma applyCreators_fields (out : POut) (pg : PageState) :
    (applyCreators out pg).price_current = out.price_current ∧
    (applyCreators out pg).availability = out.availability ∧
    (applyCreators out pg).rating = out.rating := ⟨rfl, rfl, rfl⟩

lemma except_bind_ok {A B : Type} (x : Except Unit A) (f : A → Except Unit B)
    (b : B) (h : x >>= f = .ok b) : ∃ a, x = .ok a ∧ f a = .ok b := by
  cases x with
  | error e => simp [Bind.bind, Except.bind] at h
  | ok a => exact ⟨a, rfl, h⟩

lemma extractInner_accOk (pg : PageState) (o : POut)
    (h : extractInner pg = .ok o) : accOk o := by
  have h0 : accOk initOut := ⟨Or.inl rfl, Or.inl rfl⟩
  simp only [extractInner] at h
  obtain ⟨o1, h1, h⟩ := except_bind_ok _ _ _ h
  obtain ⟨o3, h3, h⟩ := except_bind_ok _ _ _ h
  cases h
  have ha1 : accOk o1 := by
    simp only [ldStage] at h1
    revert h1
    split
    · intro h1; exact applyLd_accOk _ _ _ h1 h0
    · intro h1; cases h1; exact h0
  have ha2 : accOk (applyNext o1 pg.nextData) := by
    have hf := applyNext_fields o1 pg.nextData
    exact ⟨hf.1 ▸ ha1.1, hf.2.1 ▸ ha1.2⟩
  have ha3 : accOk o3 := applyApollo_accOk _ _ _ h3 ha2
  have ha4 : accOk (applySigi o3 pg.sigi) := by
    have hf := applySigi_fields o3 pg.sigi
    exact ⟨hf.1 ▸ ha3.1, hf.2.1 ▸ ha3.2⟩
  have ha5 := applyDom_fields (applySigi o3 pg.sigi) pg ha4.2
  have ha6 := applyCreators_fields (applyDom (applySigi o3 pg.sigi) pg) pg
  exact ⟨ha6.1 ▸ (ha5.1 ▸ ha4.1), ha6.2.1 ▸ ha5.2.1⟩

/-- Record-level invariant: an extracted record's `price.current` is never
NaN and its `availability` is `null` or a string. -/
lemma extract_ok_priceAvail (pg : PageState) (u g n : String) (r : ProductRecord)
    (h : extractProduct pg u g n = .ok r) :
    r.price_current ≠ some .nan ∧ availOkV r.availability := by
  simp only [extractProduct, Except.map] at h
  cases hin : extractInner pg with
  | error e => rw [hin] at h; exact absurd h (by simp)
  | ok o =>
    rw [hin] at h
    simp only at h
    cases h
    have ho := extractInner_accOk pg o hin
    constructor
    · show finalizeNum o.price_current ≠ some .nan
      rcases ho.1 with hnull | ⟨m, hm, htr⟩
      · rw [hnull]; simp [finalizeNum, isNullish]
      · rw [hm]
        simp only [finalizeNum, isNullish]
        intro hc
        simp only [jsToNumber] at hc
        cases hc' : m with
        | nan => rw [hc'] at htr; simp [truthy] at htr
        | inf b => rw [hc'] at hc; simp at hc
        | fin q => rw [hc'] at hc; simp at hc
    · show availOkV (jsOr o.availability .null)
      rcases ho.2 with hnull | ⟨s, hs⟩
      · rw [hnull]; exact Or.inl (by simp [jsOr, truthy])
      · rw [hs]
        by_cases he : s = ""
        · subst he; exact Or.inl (by simp [jsOr, truthy])
        · exact Or.inr ⟨s, by simp [jsOr, truthy, he]⟩

/-! ## Claim theorems -/

lemma strictEqOptNum_iff (pp cp : Option JNum) (h : cp ≠ some .nan) :
    strictEqOptNum pp cp = true ↔ pp = cp := by
  cases pp with
  | none =>
    cases cp with
    | none => simp [strictEqOptNum]
    | some b => simp [strictEqOptNum]
  | some a =>
    cases cp with
    | none => simp [strictEqOptNum]
    | some b =>
      have hb : b ≠ .nan := fun hc => h (by rw [hc])
      cases a with
      | nan => cases b <;> simp_all [strictEqOptNum, numStrictEq]
      | inf x =>
        cases b with
        | nan => simp_all
        | inf y => simp [strictEqOptNum, numStrictEq]
        | fin q => simp [strictEqOptNum, numStrictEq]
      | fin p =>
        cases b with
        | nan => simp_all
        | inf y => simp [strictEqOptNum, numStrictEq]
        | fin q => simp [strictEqOptNum, numStrictEq]

lemma strictEqJV_iff_availOk (a b : JVal) (hb : availOkV b) :
    strictEqJV a b = true ↔ a = b := by
  rcases hb with h | ⟨s, h⟩ <;> subst h <;>
    cases a <;> simp [strictEqJV]

/-- C1: the change computation returns `{first_seen: true}` iff the
previous snapshot is absent; otherwise it compares only `price.current`
and `availability`, and includes a `{from, to}` entry for a field iff the
new value is non-null and unequal to the prior value (so a null new value
never produces an entry).  The comparisons in the source are JS `!==`;
part 1 shows extracted records satisfy the invariants (`price.current`
never NaN, `availability` null-or-string) under which `!==` coincides with
value inequality, as used in parts 2-3. -/
theorem detectChanges_characterization :
    (∀ pg u g n r, extractProduct pg u g n = .ok r →
      r.price_current ≠ some .nan ∧ availOkV r.availability) ∧
    (∀ curr, detectChanges none curr =
      { first_seen := true, price := none, availability := none }) ∧
    (∀ p curr, curr.price_current ≠ some .nan → availOkV curr.availability →
      (detectChanges (some p) curr).first_seen = false ∧
      ((curr.price_current ≠ none ∧ curr.price_current ≠ p.price_current) →
        (detectChanges (some p) curr).price =
          some (p.price_current, curr.price_current)) ∧
      (¬(curr.price_current ≠ none ∧ curr.price_current ≠ p.price_current) →
        (detectChanges (some p) curr).price = none) ∧
      ((normNullish curr.availability ≠ .null ∧
        normNullish curr.availability ≠ normNullish p.availability) →
        (detectChanges (some p) curr).availability =
          some (normNullish p.availability, normNullish curr.availability)) ∧
      (¬(normNullish curr.availability ≠ .null ∧
        normNullish curr.availability ≠ normNullish p.availability) →
        (detectChanges (some p) curr).availability = none)) := by
  refine ⟨extract_ok_priceAvail, fun curr => rfl, fun p curr hn ha => ?_⟩
  have havn : availOkV (normNullish curr.availability) := by
    rcases ha with h | ⟨s, h⟩ <;> rw [h]
    · exact Or.inl rfl
    · exact Or.inr ⟨s, rfl⟩
  refine ⟨rfl, ?_, ?_, ?_, ?_⟩
  · rintro ⟨h1, h2⟩
    simp only [detectChanges]
    have : strictEqOptNum p.price_current curr.price_current = false := by
      rcases hb : strictEqOptNum p.price_current curr.price_current with _ | _
      · rfl
      · exact absurd ((strictEqOptNum_iff _ _ hn).mp hb).symm h2
    simp [this, Option.isSome_iff_exists, Option.ne_none_iff_exists'.mp h1]
  · intro hcon
    simp only [detectChanges]
    by_cases h1 : curr.price_current = none
    · simp [h1, strictEqOptNum]
    · have h2 : curr.price_current = p.price_current := by
        by_contra hne
        exact hcon ⟨h1, hne⟩
      have : strictEqOptNum p.price_current curr.price_current = true :=
        (strictEqOptNum_iff _ _ hn).mpr h2.symm
      simp [this]
  · rintro ⟨h1, h2⟩
    simp only [detectChanges]
    have hne : strictEqJV (normNullish p.availability)
        (normNullish curr.availability) = false := by
      rcases hb : strictEqJV (normNullish p.availability)
          (normNullish curr.availability) with _ | _
      · rfl
      · exact absurd ((strictEqJV_iff_availOk _ _ havn).mp hb).symm h2
    have hnn : isNullish (normNullish curr.availability) = false := by
      rcases havn with h | ⟨s, h⟩
      · exact absurd h h1
      · rw [h]; rfl
    simp [hne, hnn]
  · intro hcon
    simp only [detectChanges]
    by_cases h1 : normNullish curr.availability = .null
    · have : isNullish (normNullish curr.availability) = true := by
        rw [h1]; rfl
      simp [this]
    · have h2 : normNullish curr.availability = normNullish p.availability := by
        by_contra hne
        exact hcon ⟨h1, hne⟩
      have : strictEqJV (normNullish p.availability)
          (normNullish curr.availability) = true :=
        (strictEqJV_iff_availOk _ _ havn).mpr h2.symm
      simp [this]

def recPrev25 : ProductRecord :=
  ⟨"p1", "https://x/product/p1", some "US", "t1", .null, .null, .null, .null, .null,
   some (.fin 25), none, .null, .str "IN_STOCK", none, none, [], [], .null, {}⟩

def recCurr20 : ProductRecord :=
  ⟨"p1", "https://x/product/p1", some "US", "t2", .null, .null, .null, .null, .null,
   some (.fin 20), none, .null, .str "IN_STOCK", none, none, [], [], .null, {}⟩

theorem detectChanges_characterization_witness :
    (detectChanges (some recPrev25) recCurr20).first_seen = false ∧
    (detectChanges (some recPrev25) recCurr20).price =
      some (some (.fin 25), some (.fin 20)) := by
  have h := detectChanges_characterization.2.2 recPrev25 recCurr20
    (by decide) (Or.inr ⟨"IN_STOCK", rfl⟩)
  exact ⟨h.1, h.2.1 ⟨by decide, by decide⟩⟩

lemma strictEqJV_refl_availOk (v : JVal) (h : availOkV v) : strictEqJV v v = true := by
  rcases h with h | ⟨s, h⟩ <;> subst h <;> simp [strictEqJV]

lemma detectChanges_self_empty (prev curr : ProductRecord)
    (hn : curr.price_current ≠ some .nan)
    (hok : availOkV curr.availability)
    (hp : curr.price_current = prev.price_current)
    (ha : normNullish curr.availability = normNullish prev.availability) :
    detectChanges (some prev) curr =
      { first_seen := false, price := none, availability := none } := by
  simp only [detectChanges]
  have h1 : strictEqOptNum prev.price_current curr.price_current = true :=
    (strictEqOptNum_iff _ _ hn).mpr hp.symm
  have havn : availOkV (normNullish curr.availability) := by
    rcases hok with h | ⟨s, h⟩ <;> rw [h]
    · exact Or.inl rfl
    · exact Or.inr ⟨s, rfl⟩
  have h2 : strictEqJV (normNullish prev.availability)
      (normNullish curr.availability) = true :=
    (strictEqJV_iff_availOk _ _ havn).mpr ha.symm
  simp [h1, h2]

lemma extract_now_indep (pg : PageState) (u g n n2 : String) (r : ProductRecord)
    (h : extractProduct pg u g n = .ok r) :
    extractProduct pg u g n2 = .ok { r with captured_at := n2 } := by
  simp only [extractProduct, Except.map] at h ⊢
  cases hin : extractInner pg with
  | error e => rw [hin] at h; exact absurd h (by simp)
  | ok o =>
    rw [hin] at h
    simp only at h
    cases h
    rfl

lemma handleProduct_ok_inv (cfg : Option NotifyCfg) (post : JVal → Except String Unit)
    (store : String → Option ProductRecord) (pg : PageState) (u g n : String)
    (r : ProductRecord) (st : String → Option ProductRecord)
    (att : List (SinkKind × JVal × Bool))
    (h : handleProduct cfg post store pg u g n = .ok (r, st, att)) :
    ∃ p, extractProduct pg u g n = .ok p ∧
      r = { p with detected_changes :=
        detectChanges (store ("product_" ++ p.product_id)) p } ∧
      st = (fun k => if k = "product_" ++ p.product_id then some r else store k) := by
  simp only [handleProduct] at h
  obtain ⟨p, hx, h⟩ := except_bind_ok _ _ _ h
  obtain ⟨a, hs, h⟩ := except_bind_ok _ _ _ h
  rw [Except.ok.injEq] at h
  simp only [Prod.mk.injEq] at h
  obtain ⟨h1, h2, h3⟩ := h
  exact ⟨p, hx, h1.symm, by rw [← h2, ← h1]⟩

/-- C5: committing the same record twice in succession for the same
productId yields an empty `detectedChanges` on the second extraction.
Part 1 states the diff level: against a snapshot with equal
`price.current` and equal (normalized) `availability`, no `first_seen`
flag and no value-change entry is produced (under the extraction
invariants of `extract_ok_priceAvail`, since the source compares with JS
`!==`).  Part 2 states the request-handler level: for any two consecutive
PRODUCT runs over the same page, the second run's record carries an empty
change set. -/
theorem second_commit_empty_changes :
    (∀ prev curr : ProductRecord, curr.price_current ≠ some .nan →
      availOkV curr.availability →
      curr.price_current = prev.price_current →
      normNullish curr.availability = normNullish prev.availability →
      detectChanges (some prev) curr =
        { first_seen := false, price := none, availability := none }) ∧
    (∀ cfg post store pg u g n1 n2 r1 st1 at1,
      handleProduct cfg post store pg u g n1 = .ok (r1, st1, at1) →
      ∀ r2 st2 at2, handleProduct cfg post st1 pg u g n2 = .ok (r2, st2, at2) →
      r2.detected_changes =
        { first_seen := false, price := none, availability := none }) := by
  refine ⟨detectChanges_self_empty, ?_⟩
  intro cfg post store pg u g n1 n2 r1 st1 at1 h1 r2 st2 at2 h2
  obtain ⟨p1, hx1, hr1, hst1⟩ := handleProduct_ok_inv _ _ _ _ _ _ _ _ _ _ h1
  obtain ⟨p2, hx2, hr2, hst2⟩ := handleProduct_ok_inv _ _ _ _ _ _ _ _ _ _ h2
  have hp2 : p2 = { p1 with captured_at := n2 } := by
    have h := extract_now_indep pg u g n1 n2 p1 hx1
    rw [h] at hx2
    exact ((Except.ok.injEq _ _).mp hx2).symm
  have hkey : ("product_" ++ p2.product_id) = ("product_" ++ p1.product_id) := by
    rw [hp2]
  have hprev : st1 ("product_" ++ p2.product_id) = some r1 := by
    rw [hst1]
    simp [hkey]
  rw [hr2, hprev]
  show detectChanges (some r1) p2 = _
  have hinv := extract_ok_priceAvail pg u g n2 _ hx2
  apply detectChanges_self_empty _ _ hinv.1 hinv.2
  · rw [hp2, hr1]
  · rw [hp2, hr1]

def pgC5 : PageState := ⟨[], none, none, none, none, none, [], "", [], "https://t"⟩

def storeC5 : String → Option ProductRecord := fun _ => none

def postC5 : JVal → Except String Unit := fun _ => .ok ()

def recC5base : ProductRecord :=
  ⟨"p5", "https://x/product/p5", some "US", "t1", .null, .null, .null, .null, .null,
   none, none, .null, .null, none, none, [], [], .null, {}⟩

def rec1C5 : ProductRecord := { recC5base with detected_changes := { first_seen := true } }

def st1C5 : String → Option ProductRecord :=
  fun k => if k = "product_p5" then some rec1C5 else storeC5 k

def rec2C5 : ProductRecord := { recC5base with captured_at := "t2" }

def st2C5 : String → Option ProductRecord :=
  fun k => if k = "product_p5" then some rec2C5 else st1C5 k

theorem second_commit_empty_changes_witness :
    rec2C5.detected_changes =
      { first_seen := false, price := none, availability := none } :=
  second_commit_empty_changes.2 none postC5 storeC5 pgC5 "https://x/product/p5" "US"
    "t1" "t2" rec1C5 st1C5 [] (by rfl) rec2C5 st2C5 [] (by rfl)

lemma sendNotifications_never_fails (cfg : Option NotifyCfg) (item : ProductRecord)
    (post : JVal → Except String Unit) :
    ∃ l, sendNotifications cfg item post = .ok l := by
  cases cfg with
  | none => exact ⟨[], rfl⟩
  | some c =>
    simp only [sendNotifications]
    split
    · exact ⟨[], rfl⟩
    · exact ⟨_, rfl⟩

/-- C4: every sink delivery is attempted independently; a delivery failure
on one sink (the chat-style sink or the generic webhook) does not prevent
the other from being attempted, never makes the dispatch function fail
(part 1), and never fails the overall crawl step (part 3, which shows the
PRODUCT handler succeeds for every transport outcome once extraction
succeeded).  Part 2 pins the exact attempt list: with both sinks
configured and a non-empty change set, both are attempted in order, with
each outcome determined solely by its own transport result. -/
theorem notification_sink_isolation :
    (∀ cfg item post, ∃ l, sendNotifications cfg item post = .ok l) ∧
    (∀ item post wu su, truthy wu = true → truthy su = true →
      hasChangeB item.detected_changes = true →
      sendNotifications (some ⟨wu, su⟩) item post =
        .ok [(SinkKind.webhook, wu, (post wu).isOk),
             (SinkKind.slack, su, (post su).isOk)]) ∧
    (∀ cfg post store pg u g n r, extractProduct pg u g n = .ok r →
      ∃ out, handleProduct cfg post store pg u g n = .ok out) := by
  refine ⟨sendNotifications_never_fails, ?_, ?_⟩
  · intro item post wu su hw hs hc
    simp only [sendNotifications, hc, Bool.not_true, attemptSink, hw, hs,
      if_true, if_false]
    cases hpw : post wu <;> cases hps : post su <;> simp [Except.isOk, Except.toBool]
  · intro cfg post store pg u g n r hx
    simp only [handleProduct, hx]
    obtain ⟨l, hl⟩ := sendNotifications_never_fails cfg
      { r with detected_changes :=
        detectChanges (store ("product_" ++ r.product_id)) r } post
    simp only [bind, Except.bind, hl]
    exact ⟨_, rfl⟩

def itemC4 : ProductRecord :=
  ⟨"p4", "https://x/product/p4", some "US", "t1", .null, .null, .null, .null, .null,
   some (.fin 20), none, .null, .null, none, none, [], [],
   .null, { first_seen := true }⟩

def postC4 : JVal → Except String Unit := fun _ => .error "network"

theorem notification_sink_isolation_witness :
    sendNotifications (some ⟨.str "https://w", .str "https://s"⟩) itemC4 postC4 =
      .ok [(SinkKind.webhook, .str "https://w", false),
           (SinkKind.slack, .str "https://s", false)] :=
  notification_sink_isolation.2.1 itemC4 postC4 (.str "https://w") (.str "https://s")
    (by decide) (by decide) (by rfl)

lemma mem_dropWhile_of_neg {p : Char → Bool} {c : Char} (hp : p c = false) :
    ∀ l : List Char, c ∈ l → c ∈ l.dropWhile p := by
  intro l
  induction l with
  | nil => intro h; exact absurd h (List.not_mem_nil c)
  | cons a t ih =>
    intro h
    by_cases ha : p a = true
    · rw [List.dropWhile_cons_of_pos ha]
      rcases List.mem_cons.mp h with he | ht
      · subst he; rw [hp] at ha; exact absurd ha (by simp)
      · exact ih ht
    · rw [List.dropWhile_cons_of_neg ha]
      exact h

lemma comma_mem_jsTrim (s : String) (h : ',' ∈ s.data) : ',' ∈ jsTrim s := by
  have hw : isWsJs ',' = false := by decide
  unfold jsTrim
  rw [List.mem_reverse]
  apply mem_dropWhile_of_neg hw
  rw [List.mem_reverse]
  exact mem_dropWhile_of_neg hw _ h

lemma parseDecBody_chars (cs : List Char) (q : ℚ) (rest : List Char)
    (h : parseDecBody cs = some (q, rest)) :
    ∃ pre, cs = pre ++ rest ∧ ∀ c ∈ pre, c.isDigit = true ∨ c = '.' := by
  simp only [parseDecBody] at h
  split at h
  case h_1 r2 heq =>
    split at h
    · exact absurd h (by simp)
    · rw [Option.some.injEq, Prod.mk.injEq] at h
      refine ⟨cs.takeWhile Char.isDigit ++ '.' :: r2.takeWhile Char.isDigit, ?_, ?_⟩
      · rw [← h.2]
        conv_lhs => rw [← List.takeWhile_append_dropWhile (p := Char.isDigit) (l := cs)]
        rw [heq, List.append_assoc, List.cons_append,
          List.takeWhile_append_dropWhile]
      · intro c hc
        rcases List.mem_append.mp hc with h1 | h2
        · exact Or.inl (List.mem_takeWhile_imp h1)
        · rcases List.mem_cons.mp h2 with he | ht
          · exact Or.inr he
          · exact Or.inl (List.mem_takeWhile_imp ht)
  case h_2 =>
    split at h
    · exact absurd h (by simp)
    · rw [Option.some.injEq, Prod.mk.injEq] at h
      refine ⟨cs.takeWhile Char.isDigit, ?_, ?_⟩
      · rw [← h.2, List.takeWhile_append_dropWhile]
      · intro c hc
        exact Or.inl (List.mem_takeWhile_imp hc)

lemma parseExpDigits_chars (neg : Bool) (r2 : List Char) (e : ℤ) (rest : List Char)
    (h : parseExpDigits neg r2 = some (e, rest)) :
    ∃ pre, r2 = pre ++ rest ∧ ∀ c ∈ pre, c.isDigit = true := by
  simp only [parseExpDigits] at h
  split at h
  · exact absurd h (by simp)
  · rw [Option.some.injEq, Prod.mk.injEq] at h
    refine ⟨r2.takeWhile Char.isDigit, ?_, ?_⟩
    · rw [← h.2, List.takeWhile_append_dropWhile]
    · intro c hc
      exact List.mem_takeWhile_imp hc

lemma parseExpBody_chars (r : List Char) (e : ℤ) (rest : List Char)
    (h : parseExpBody r = some (e, rest)) :
    ∃ pre, r = pre ++ rest ∧
      ∀ c ∈ pre, c.isDigit = true ∨ c = '+' ∨ c = '-' := by
  unfold parseExpBody at h
  split at h
  case h_1 r2 =>
    obtain ⟨pre, hpre, hall⟩ := parseExpDigits_chars _ _ _ _ h
    refine ⟨'-' :: pre, by rw [hpre]; rfl, ?_⟩
    intro c hc
    rcases List.mem_cons.mp hc with he | ht
    · exact Or.inr (Or.inr he)
    · exact Or.inl (hall c ht)
  case h_2 r2 =>
    obtain ⟨pre, hpre, hall⟩ := parseExpDigits_chars _ _ _ _ h
    refine ⟨'+' :: pre, by rw [hpre]; rfl, ?_⟩
    intro c hc
    rcases List.mem_cons.mp hc with he | ht
    · exact Or.inr (Or.inl he)
    · exact Or.inl (hall c ht)
  case h_3 =>
    obtain ⟨pre, hpre, hall⟩ := parseExpDigits_chars _ _ _ _ h
    exact ⟨pre, hpre, fun c hc => Or.inl (hall c hc)⟩

lemma parseExpPart_chars (cs : List Char) (e : ℤ) (rest : List Char)
    (h : parseExpPart cs = some (e, rest)) :
    ∃ pre, cs = pre ++ rest ∧
      ∀ c ∈ pre, c.isDigit = true ∨ c = 'e' ∨ c = 'E' ∨ c = '+' ∨ c = '-' := by
  unfold parseExpPart at h
  split at h
  case h_1 r =>
    obtain ⟨pre, hpre, hall⟩ := parseExpBody_chars _ _ _ h
    refine ⟨'e' :: pre, by rw [hpre]; rfl, ?_⟩
    intro c hc
    rcases List.mem_cons.mp hc with he | ht
    · exact Or.inr (Or.inl he)
    · rcases hall c ht with h1 | h2 | h3
      · exact Or.inl h1
      · exact Or.inr (Or.inr (Or.inr (Or.inl h2)))
      · exact Or.inr (Or.inr (Or.inr (Or.inr h3)))
  case h_2 r =>
    obtain ⟨pre, hpre, hall⟩ := parseExpBody_chars _ _ _ h
    refine ⟨'E' :: pre, by rw [hpre]; rfl, ?_⟩
    intro c hc
    rcases List.mem_cons.mp hc with he | ht
    · exact Or.inr (Or.inr (Or.inl he))
    · rcases hall c ht with h1 | h2 | h3
      · exact Or.inl h1
      · exact Or.inr (Or.inr (Or.inr (Or.inl h2)))
      · exact Or.inr (Or.inr (Or.inr (Or.inr h3)))
  case h_3 =>
    rw [Option.some.injEq, Prod.mk.injEq] at h
    exact ⟨[], by rw [← h.2]; rfl, fun c hc => absurd hc (List.not_mem_nil c)⟩

lemma jsNumCore_comma (neg : Bool) (cs2 : List Char) (h : ',' ∈ cs2) :
    jsNumCore neg cs2 = .nan := by
  unfold jsNumCore
  by_cases hinf : cs2 = "Infinity".data
  · subst hinf; exact absurd h (by decide)
  rw [if_neg hinf]
  cases hd : parseDecBody cs2 with
  | none => rfl
  | some p =>
    obtain ⟨q, rest⟩ := p
    dsimp only
    cases he : parseExpPart rest with
    | none => rfl
    | some p2 =>
      obtain ⟨e, rest2⟩ := p2
      dsimp only
      by_cases hr : rest2 = []
      · exfalso
        subst hr
        obtain ⟨pre1, hcs, hall1⟩ := parseDecBody_chars _ _ _ hd
        obtain ⟨pre2, hrest, hall2⟩ := parseExpPart_chars _ _ _ he
        rw [List.append_nil] at hrest
        rw [hcs, hrest] at h
        rcases List.mem_append.mp h with h1 | h2
        · rcases hall1 _ h1 with hx | hx <;> exact absurd hx (by decide)
        · rcases hall2 _ h2 with hx | hx | hx | hx | hx <;>
            exact absurd hx (by decide)
      · rw [if_neg hr]

/-- A numeric string containing a comma never parses: `Number` yields NaN
(the modelled literal grammar has no comma anywhere). -/
lemma jsNumOfString_comma (s : String) (h : ',' ∈ s.data) :
    jsNumOfString s = .nan := by
  unfold jsNumOfString
  have h2 : ',' ∈ jsTrim s := comma_mem_jsTrim s h
  have hne : jsTrim s ≠ [] := fun hc => absurd (hc ▸ h2) (List.not_mem_nil _)
  unfold jsNumOfTrimmed
  rw [if_neg hne]
  split
  case h_1 r heq =>
    apply jsNumCore_comma
    rw [heq] at h2
    rcases List.mem_cons.mp h2 with hx | hx
    · exact absurd hx (by decide)
    · exact hx
  case h_2 r heq =>
    apply jsNumCore_comma
    rw [heq] at h2
    rcases List.mem_cons.mp h2 with hx | hx
    · exact absurd hx (by decide)
    · exact hx
  case h_3 =>
    exact jsNumCore_comma _ _ h2

def emptyPage : PageState := ⟨[], none, none, none, none, none, [], "", [], "https://t"⟩

def pgC2a : PageState := { emptyPage with
  ldScripts := [some (.obj [("@type", .str "Product"),
    ("offers", .obj [("price", .str "1,99")])])] }

def pgC2b : PageState := { emptyPage with
  ldScripts := [some (.obj [("@type", .str "Product"),
    ("offers", .obj [("price", .str "1,234.56")])])] }

/-- C2 counterexample: a linked-data offer declaring the price string
"1,99" does not parse to 1.99 — the record's `price.current` is null,
because the source coerces with plain `Number()` (NaN, falsy, `|| null`)
and performs no comma/thousands-separator normalization. -/
theorem comma_decimal_claim_false :
    (extractProduct pgC2a "https://x/product/p2" "US" "t0").map
      (fun r => r.price_current) ≠ .ok (some (.fin (199 / 100))) ∧
    (extractProduct pgC2a "https://x/product/p2" "US" "t0").map
      (fun r => r.price_current) = .ok none := by
  have h : (extractProduct pgC2a "https://x/product/p2" "US" "t0").map
      (fun r => r.price_current) = .ok none := by rfl
  refine ⟨?_, h⟩
  rw [h]
  intro hc
  rw [Except.ok.injEq] at hc
  exact absurd hc (by decide)

/-- C2 amended: the source has no locale-aware numeric parsing; price
strings are coerced with plain `Number()`, under which any string
containing a comma is NaN and the `|| null` guard makes the field null —
"1,99" and "1,234.56" both yield `price.current = null`. -/
theorem numeric_coercion_no_comma_handling :
    (∀ s : String, ',' ∈ s.data → jsNumOfString s = .nan) ∧
    (∀ s : String, ',' ∈ s.data →
      jsOr (.num (jsToNumber (.str s))) .null = .null) ∧
    (extractProduct pgC2a "https://x/product/p2" "US" "t0").map
      (fun r => r.price_current) = .ok none ∧
    (extractProduct pgC2b "https://x/product/p2" "US" "t0").map
      (fun r => r.price_current) = .ok none := by
  refine ⟨jsNumOfString_comma, ?_, by rfl, by rfl⟩
  intro s hs
  have h := jsNumOfString_comma s hs
  simp [jsToNumber, h, jsOr, truthy]

theorem numeric_coercion_no_comma_handling_witness :
    jsNumOfString "1,99" = .nan ∧
    jsOr (.num (jsToNumber (.str "1,234.56"))) .null = .null :=
  ⟨numeric_coercion_no_comma_handling.1 "1,99" (by decide),
   numeric_coercion_no_comma_handling.2.1 "1,234.56" (by decide)⟩

def pgC3 : PageState := { emptyPage with
  ldScripts := [some (.obj [("@type", .str "Product"), ("offers", .arr [])])] }

/-- C3 counterexample: a page whose linked-data Product carries
`offers: []` aborts the extraction pipeline — `offers` is truthy and an
array, so the source reads `offers[0].price` and throws a TypeError that
no local handler catches. -/
theorem empty_offers_abort_extraction :
    extractProduct pgC3 "https://x/product/p3" "US" "t0" = .error () := by rfl

/-- Shape condition under which the offers block cannot throw: when the
offers value is an array, it is non-empty with a non-nullish first
element. -/
def offersShapeSafe (prod : JVal) : Prop :=
  match jsOr (jsGetD prod "offers") (jsOr (jsGetD prod "aggregateOffer") .null) with
  | .arr xs =>
    match xs.headD .undefined with
    | .undefined => False
    | .null => False
    | _ => True
  | _ => True

def ldOffersSafe (pg : PageState) : Prop :=
  match findLdProduct pg.ldScripts with
  | some prod => offersShapeSafe prod
  | none => True

/-- Shape condition under which the Apollo images map cannot throw: no
state-cache entry has a nullish element in its `images` array. -/
def apolloImagesSafe (pg : PageState) : Prop :=
  ∀ kv ∈ entriesOf (match pg.apollo with | some v => v | none => .null),
    ∀ x ∈ (match jsGetD kv.2 "images" with | .arr xs => xs | _ => []),
      isNullish x = false

lemma processOffers_ok (out : POut) (prod : JVal) (h : offersShapeSafe prod) :
    ∃ o, processOffers out prod = .ok o := by
  unfold offersShapeSafe at h
  unfold processOffers
  dsimp only
  split
  · split
    case h_1 xs heq =>
      rw [heq] at h
      dsimp only at h
      revert h
      split <;> intro h
      · exact h.elim
      · exact h.elim
      · exact ⟨_, rfl⟩
    case h_2 => exact ⟨_, rfl⟩
  · exact ⟨_, rfl⟩

lemma applyLd_ok (out : POut) (prod : JVal) (h : offersShapeSafe prod) :
    ∃ o, applyLd out prod = .ok o := by
  obtain ⟨o, ho⟩ := processOffers_ok { out with
    title := jsOr out.title (jsOr (jsGetD prod "name") .null),
    description := jsOr out.description (jsOr (jsGetD prod "description") .null) }
    prod h
  refine ⟨applyLdSku (applyLdRating (applyLdSeller (applyLdBrand
    (applyLdImages o prod) prod) prod) prod) prod, ?_⟩
  simp [applyLd, bind, Except.bind, ho]

lemma imgMapElem_ok (x : JVal) (h : isNullish x = false) :
    ∃ v, imgMapElem x = .ok v := by
  cases x <;> first | exact ⟨_, rfl⟩ | exact absurd h (by simp [isNullish])

lemma mapImgs_ok (xs : List JVal) (h : ∀ x ∈ xs, isNullish x = false) :
    ∃ l, mapImgs xs = .ok l := by
  induction xs with
  | nil => exact ⟨[], rfl⟩
  | cons a t ih =>
    obtain ⟨v, hv⟩ := imgMapElem_ok a (h a (List.mem_cons_self a t))
    obtain ⟨l, hl⟩ := ih (fun x hx => h x (List.mem_cons_of_mem a hx))
    exact ⟨v :: l, by simp [mapImgs, bind, Except.bind, hv, hl]⟩

lemma apolloImages_ok (out : POut) (v : JVal)
    (h : ∀ x ∈ (match jsGetD v "images" with | .arr xs => xs | _ => []),
      isNullish x = false) :
    ∃ o, apolloImages out v = .ok o := by
  unfold apolloImages
  split
  case h_1 xs heq =>
    rw [heq] at h
    dsimp only at h
    split
    · split
      · exact ⟨_, rfl⟩
      · obtain ⟨l, hl⟩ := mapImgs_ok xs h
        refine ⟨{ out with images := l }, ?_⟩
        simp [bind, Except.bind, hl]
    · exact ⟨_, rfl⟩
  case h_2 => exact ⟨_, rfl⟩

lemma applyApolloEntry_ok (out : POut) (kv : String × JVal)
    (h : ∀ x ∈ (match jsGetD kv.2 "images" with | .arr xs => xs | _ => []),
      isNullish x = false) :
    ∃ o, applyApolloEntry out kv = .ok o := by
  unfold applyApolloEntry
  dsimp only
  split
  · split
    · obtain ⟨o, ho⟩ := apolloImages_ok (apolloCore out kv.2) kv.2 h
      refine ⟨apolloStock o kv.2, ?_⟩
      simp [bind, Except.bind, ho]
    · exact ⟨_, rfl⟩
  · exact ⟨_, rfl⟩

lemma foldlM_ok {σ α : Type} (f : σ → α → Except Unit σ)
    (l : List α) (hf : ∀ a ∈ l, ∀ b, ∃ b2, f b a = .ok b2) :
    ∀ b, ∃ b2, List.foldlM f b l = .ok b2 := by
  induction l with
  | nil => exact fun b => ⟨b, rfl⟩
  | cons a t ih =>
    intro b
    obtain ⟨b1, hb1⟩ := hf a (List.mem_cons_self a t) b
    obtain ⟨b2, hb2⟩ := ih (fun x hx b0 => hf x (List.mem_cons_of_mem a hx) b0) b1
    exact ⟨b2, by rw [List.foldlM_cons, hb1]; simpa [bind, Except.bind] using hb2⟩

lemma applyApollo_ok (out : POut) (ap : Option JVal)
    (h : ∀ kv ∈ entriesOf (match ap with | some v => v | none => .null),
      ∀ x ∈ (match jsGetD kv.2 "images" with | .arr xs => xs | _ => []),
        isNullish x = false) :
    ∃ o, applyApollo out ap = .ok o := by
  unfold applyApollo
  dsimp only
  split
  · exact foldlM_ok _ _ (fun kv hkv b => applyApolloEntry_ok b kv (h kv hkv)) out
  · exact ⟨_, rfl⟩

/-- C3 amended: extraction never aborts and always yields a record whose
`url` is the request URL (with `productId` always populated, see C7),
provided no linked-data Product carries an array-shaped `offers` that is
empty or starts with a nullish entry, and no state-cache images list
contains a nullish element; JSON parse errors in any single source are
swallowed locally by construction (`ldScripts` entries are parse results,
`none` = failed parse).  Outside these conditions the pipeline can abort,
as `empty_offers_abort_extraction` shows. -/
theorem extraction_total_under_shape_conditions :
    ∀ pg u g n, ldOffersSafe pg → apolloImagesSafe pg →
      ∃ r, extractProduct pg u g n = .ok r ∧ r.url = u := by
  intro pg u g n h1 h2
  unfold ldOffersSafe at h1
  have hld : ∃ o1, ldStage pg = .ok o1 := by
    unfold ldStage
    revert h1
    split
    · intro h1; exact applyLd_ok initOut _ h1
    · intro h1; exact ⟨_, rfl⟩
  obtain ⟨o1, ho1⟩ := hld
  obtain ⟨o3, ho3⟩ := applyApollo_ok (applyNext o1 pg.nextData) pg.apollo h2
  refine ⟨finalize (applyCreators (applyDom (applySigi o3 pg.sigi) pg) pg) u g n,
    ?_, rfl⟩
  simp [extractProduct, extractInner, bind, Except.bind, ho1, ho3, Except.map]

theorem extraction_total_under_shape_conditions_witness :
    ∃ r, extractProduct emptyPage "https://x/q" "US" "t0" = .ok r ∧
      r.url = "https://x/q" :=
  extraction_total_under_shape_conditions emptyPage "https://x/q" "US" "t0"
    (by trivial) (by intro kv hkv; cases hkv)

lemma dedupeFirst_go_sub (l : List String) :
    ∀ (seen : List String) (x : String), x ∈ dedupeFirst.go seen l → x ∈ l := by
  induction l with
  | nil => intro seen x h; exact absurd h (List.not_mem_nil x)
  | cons a t ih =>
    intro seen x h
    simp only [dedupeFirst.go] at h
    split at h
    · exact List.mem_cons_of_mem a (ih seen x h)
    · rcases List.mem_cons.mp h with he | ht
      · exact he ▸ List.mem_cons_self a t
      · exact List.mem_cons_of_mem a (ih _ x ht)

def pgC6L : PageState :=
  { emptyPage with anchors := ["/product/a1?x=1"], origin := "https://shop.tiktok.com" }

/-- C6 counterexample: the record's `url` is the request URL verbatim — a
seeded product URL carrying a query string and fragment is not
canonicalized (main.js:301 stores `requestUrl` unchanged). -/
theorem url_not_canonicalized :
    (extractProduct emptyPage "https://shop.tiktok.com/product/77?aff=1#frag"
      "US" "t0").map (fun r => r.url) =
      .ok "https://shop.tiktok.com/product/77?aff=1#frag" ∧
    "https://shop.tiktok.com/product/77?aff=1#frag" ≠
      "https://shop.tiktok.com/product/77" :=
  ⟨by rfl, by decide⟩

/-- C6 amended: the emitted record's `url` equals the request URL
verbatim; only links discovered on listing pages are stripped, at the
first `?` (`abs.split('?')[0]`, which removes a fragment only when it
follows a `?`), before being enqueued. -/
theorem record_url_is_request_url :
    (∀ pg u g n v,
      (extractProduct pg u g n).map (fun r => r.url) = .ok v → v = u) ∧
    (∀ pg limit u, u ∈ collectProductLinks pg limit → '?' ∉ u.data) := by
  constructor
  · intro pg u g n v h
    simp only [extractProduct, Except.map] at h
    cases hin : extractInner pg with
    | error e => rw [hin] at h; exact absurd h (by simp)
    | ok o =>
      rw [hin] at h
      simp only at h
      rw [Except.ok.injEq] at h
      rw [← h]
      rfl
  · intro pg limit u hu
    simp only [collectProductLinks] at hu
    have h1 := List.mem_of_mem_take hu
    have h2 := dedupeFirst_go_sub _ _ _ h1
    obtain ⟨href, _, hf⟩ := List.mem_filterMap.mp h2
    set abs2 := if strStartsWith href "http" = true then href else pg.origin ++ href
      with habs
    by_cases hc : (testShopHost abs2 || testProductPath abs2) = true
    · rw [if_pos hc, Option.some.injEq] at hf
      rw [← hf]
      intro hq
      have := List.mem_takeWhile_imp hq
      simp at this
    · rw [if_neg hc] at hf
      exact absurd hf (by simp)

theorem record_url_is_request_url_witness :
    "https://x/q6" = "https://x/q6" ∧
    '?' ∉ "https://shop.tiktok.com/product/a1".data :=
  ⟨record_url_is_request_url.1 emptyPage "https://x/q6" "US" "t0" "https://x/q6"
    (by rfl),
   record_url_is_request_url.2 pgC6L 10 "https://shop.tiktok.com/product/a1"
    (by decide)⟩

lemma scanFirst_some_imp {α : Type} (P : α → Prop) (f : List Char → Option α)
    (hf : ∀ l a, f l = some a → P a) :
    ∀ l a, scanFirst f l = some a → P a := by
  intro l
  induction l with
  | nil => intro a h; simp [scanFirst] at h
  | cons c t ih =>
    intro a h
    simp only [scanFirst] at h
    split at h
    · rw [Option.some.injEq] at h
      subst h
      exact hf _ _ (by assumption)
    · exact ih a h

lemma matchProductSeg_ne_empty (u : String) (s : String)
    (h : matchProductSeg u = some s) : s ≠ "" := by
  refine scanFirst_some_imp (fun a => a ≠ "") _ ?_ u.data s h
  intro l a hstep
  revert hstep
  dsimp only
  split
  · split
    · intro hstep; exact absurd hstep (by simp)
    · next hne =>
      intro hstep
      rw [Option.some.injEq] at hstep
      subst hstep
      intro hc
      apply hne
      have hd := congrArg String.data hc
      simpa using hd
  · intro hstep; exact absurd hstep (by simp)

lemma sha1hex_data_length (s : String) : (sha1hex s).data.length = 40 := by
  simp [sha1hex, hex8]

lemma sliceStr16_sha1_ne_empty (s : String) : sliceStr (sha1hex s) 16 ≠ "" := by
  intro hc
  have h0 : (sliceStr (sha1hex s) 16).data.length = 0 := by rw [hc]; rfl
  simp only [sliceStr, List.length_take, sha1hex_data_length] at h0
  omega

def pgC7 : PageState := { emptyPage with
  apollo := some (.obj [("e1",
    .obj [("__typename", .str "Product"), ("id", .arr [])])]) }

/-- C7 counterexample: a state-cache Product entry with `id: []` makes the
extracted `productId` the empty string — `[]` is truthy, so it survives
the `||` chains and the final `!productId` guard, and `String([])` is
`""`. -/
theorem empty_array_id_empty_product_id :
    (extractProduct pgC7 "https://x/nope" "US" "t0").map
      (fun r => r.product_id) = .ok "" := by rfl

/-- C7 amended: `productId` is non-empty whenever every structured source
yields a value whose string coercion is non-empty when truthy (always the
case for string ids; the exception is a state-cache entry supplying a
truthy non-string id with empty coercion, such as `id: []`); and when the
page yields no structured productId and the URL contains no
`product/<segment>` path match, `productId` equals the first 16 hex chars
of the SHA-1 of the URL — a deterministic function of the URL, so
repeated runs on identical input agree. -/
theorem product_id_nonempty_and_hash_fallback :
    (∀ pg u g n o p, extractInner pg = .ok o →
      (truthy o.product_id = true → jsToString o.product_id ≠ "") →
      (extractProduct pg u g n).map (fun r => r.product_id) = .ok p →
      p ≠ "") ∧
    (∀ pg u g n o, extractInner pg = .ok o →
      truthy o.product_id = false →
      matchProductSeg u = none →
      (extractProduct pg u g n).map (fun r => r.product_id) =
        .ok (sliceStr (sha1hex u) 16)) := by
  constructor
  · intro pg u g n o p hin hstr h
    simp only [extractProduct, Except.map, hin] at h
    rw [Except.ok.injEq] at h
    rw [← h]
    show (if truthy o.product_id then jsToString o.product_id
      else match matchProductSeg u with
        | some seg => seg
        | none => sliceStr (sha1hex u) 16) ≠ ""
    by_cases ht : truthy o.product_id = true
    · rw [if_pos ht]; exact hstr ht
    · rw [if_neg ht]
      cases hm : matchProductSeg u with
      | some seg => exact matchProductSeg_ne_empty u seg hm
      | none => exact sliceStr16_sha1_ne_empty u
  · intro pg u g n o hin ht hm
    simp only [extractProduct, Except.map, hin]
    rw [Except.ok.injEq]
    show (if truthy o.product_id then jsToString o.product_id
      else match matchProductSeg u with
        | some seg => seg
        | none => sliceStr (sha1hex u) 16) = _
    rw [if_neg (by rw [ht]; exact fun hc => Bool.noConfusion hc), hm]

def oC7w : POut :=
  ⟨.str "abc", .null, .null, .null, .null, .null, .null, .null, .null, .null,
   .null, .null, [], []⟩

def pgC7w : PageState := { emptyPage with
  apollo := some (.obj [("e1",
    .obj [("__typename", .str "Product"), ("id", .str "abc")])]) }

def oC7e : POut :=
  ⟨.null, .null, .null, .null, .null, .null, .null, .null, .null, .null,
   .null, .null, [], []⟩

theorem product_id_nonempty_and_hash_fallback_witness :
    "abc" ≠ "" ∧
    (extractProduct emptyPage "https://x/nohash" "US" "t0").map
      (fun r => r.product_id) = .ok (sliceStr (sha1hex "https://x/nohash") 16) :=
  ⟨product_id_nonempty_and_hash_fallback.1 pgC7w "https://x/nope" "US" "t0"
      oC7w "abc" (by rfl) (fun _ hc => by simp [jsToString, oC7w] at hc) (by rfl),
   product_id_nonempty_and_hash_fallback.2 emptyPage "https://x/nohash" "US" "t0"
      oC7e (by rfl) (by rfl) (by rfl)⟩

def pgC8 : PageState := { emptyPage with
  ldScripts := [some (.obj [("@type", .str "Product"),
    ("offers", .obj [("highPrice", .str "abc"), ("lowPrice", .str "def")])])] }

/-- C8: at the failing input — a single-object linked-data offer with
non-numeric `highPrice`/`lowPrice` — the emitted record carries
`price.original = NaN`.  The source guards every other numeric read with
`|| null` but assigns `out.price.original = Number(primary.highPrice)`
bare (main.js:114/127), and the guard `Number(h) !== Number(l)` is *true*
for two NaNs, so the branch is taken exactly when both are non-numeric. -/
theorem nan_price_original_emitted :
    (extractProduct pgC8 "https://x/product/p8" "US" "t0").map
      (fun r => r.price_original) = .ok (some .nan) := by rfl

lemma processOffers_rating (out out' : POut) (prod : JVal)
    (h : processOffers out prod = .ok out') : out'.rating = out.rating := by
  simp only [processOffers] at h
  split at h
  · split at h
    · split at h
      · exact absurd h (by simp)
      · exact absurd h (by simp)
      · cases h; rw [applyOffer_rating]
    · cases h; rw [applyOffer_rating]
  · cases h; exact rfl

lemma applyLd_eq (out o' : POut) (prod : JVal) (h : applyLd out prod = .ok o') :
    ∃ o2, processOffers { out with
        title := jsOr out.title (jsOr (jsGetD prod "name") .null),
        description := jsOr out.description
          (jsOr (jsGetD prod "description") .null) } prod = .ok o2 ∧
      o' = applyLdSku (applyLdRating (applyLdSeller (applyLdBrand
        (applyLdImages o2 prod) prod) prod) prod) prod := by
  simp only [applyLd, bind, Except.bind] at h
  cases hpo : processOffers { out with
      title := jsOr out.title (jsOr (jsGetD prod "name") .null),
      description := jsOr out.description
        (jsOr (jsGetD prod "description") .null) } prod with
  | error e => rw [hpo] at h; exact absurd h (by simp)
  | ok o2 =>
    rw [hpo] at h
    simp only at h
    cases h
    exact ⟨o2, rfl, rfl⟩

lemma extractInner_eq (pg : PageState) (o : POut) (h : extractInner pg = .ok o) :
    ∃ o1 o3, ldStage pg = .ok o1 ∧
      applyApollo (applyNext o1 pg.nextData) pg.apollo = .ok o3 ∧
      o = applyCreators (applyDom (applySigi o3 pg.sigi) pg) pg := by
  simp only [extractInner] at h
  obtain ⟨o1, h1, h⟩ := except_bind_ok _ _ _ h
  obtain ⟨o3, h3, h⟩ := except_bind_ok _ _ _ h
  rw [Except.ok.injEq] at h
  exact ⟨o1, o3, h1, h3, h.symm⟩

lemma extractProduct_eq (pg : PageState) (u g n : String) (r : ProductRecord)
    (h : extractProduct pg u g n = .ok r) :
    ∃ o, extractInner pg = .ok o ∧ r = finalize o u g n := by
  simp only [extractProduct, Except.map] at h
  cases hin : extractInner pg with
  | error e => rw [hin] at h; exact absurd h (by simp)
  | ok o =>
    rw [hin] at h
    simp only at h
    rw [Except.ok.injEq] at h
    exact ⟨o, rfl, h.symm⟩

lemma applyApollo_none (out : POut) : applyApollo out none = .ok out := by rfl

lemma jsNumOfString_zero : jsNumOfString "0" = .fin 0 := by
  have h : jsNumOfString "0" = .fin (((0 : ℕ) : ℚ) * (10 : ℚ) ^ (0 : ℤ)) := rfl
  rw [h]
  norm_num

lemma except_map_ok {A B : Type} (x : Except Unit A) (f : A → B) (b : B)
    (h : x.map f = .ok b) : ∃ a, x = .ok a ∧ b = f a := by
  cases x with
  | error e => exact absurd h (by simp [Except.map])
  | ok a =>
    simp only [Except.map, Except.ok.injEq] at h
    exact ⟨a, rfl, h.symm⟩

lemma domAvail_price_rating (out : POut) (pg : PageState) :
    (domAvail out pg).price_current = out.price_current ∧
    (domAvail out pg).rating = out.rating := by
  simp only [domAvail]
  split
  · split
    · exact ⟨rfl, rfl⟩
    · split <;> exact ⟨rfl, rfl⟩
  · exact ⟨rfl, rfl⟩

lemma applyDom_price_rating (out : POut) (pg : PageState) :
    (applyDom out pg).price_current = out.price_current ∧
    (applyDom out pg).rating = out.rating := by
  have h1 := domTitle_fields out pg
  have h2 := domDesc_fields (domTitle out pg) pg
  have h3 := domImages_fields (domDesc (domTitle out pg) pg) pg
  have h4 := domAvail_price_rating (domImages (domDesc (domTitle out pg) pg) pg) pg
  have h5 := domSeller_fields
    (domAvail (domImages (domDesc (domTitle out pg) pg) pg) pg) pg
  constructor
  · rw [applyDom, h5.1, h4.1, h3.1, h2.1, h1.1]
  · rw [applyDom, h5.2.2, h4.2, h3.2.2, h2.2.2, h1.2.2]

/-- C9: the price coercion `Number(x) || null` treats a falsy numeric
result as absent, so a linked-data offer declaring the number 0 (or the
string "0") yields `price.current = null` rather than 0; the identical
coercion maps an aggregate rating of 0 to `rating = null`.  (The state
cache is taken absent, since it is the one later source that could refill
`price.current`; no source after the linked-data block writes `rating`.) -/
theorem zero_price_and_zero_rating_null :
    (∀ pg u g n pc prod flds,
      findLdProduct pg.ldScripts = some prod →
      jsOr (jsGetD prod "offers") (jsOr (jsGetD prod "aggregateOffer") .null) =
        .obj flds →
      (flds.lookup "price" = some (.num (.fin 0)) ∨
       flds.lookup "price" = some (.str "0")) →
      pg.apollo = none →
      (extractProduct pg u g n).map (fun r => r.price_current) = .ok pc →
      pc = none) ∧
    (∀ pg u g n rv prod,
      findLdProduct pg.ldScripts = some prod →
      truthy (jsGetD prod "aggregateRating") = true →
      (jsGetD (jsGetD prod "aggregateRating") "ratingValue" = .num (.fin 0) ∨
       jsGetD (jsGetD prod "aggregateRating") "ratingValue" = .str "0") →
      pg.apollo = none →
      (extractProduct pg u g n).map (fun r => r.rating) = .ok rv →
      rv = none) := by
  constructor
  · intro pg u g n pc prod flds hfd hobj hp hap hmap
    obtain ⟨r, hex, hpc⟩ := except_map_ok _ _ _ hmap
    obtain ⟨o, hin, hr⟩ := extractProduct_eq _ _ _ _ _ hex
    obtain ⟨o1, o3, h1, h3, ho⟩ := extractInner_eq _ _ hin
    rw [ldStage, hfd] at h1
    obtain ⟨o2, hpo, heq⟩ := applyLd_eq _ _ _ h1
    have ho2 : o2.price_current = .null := by
      simp only [processOffers] at hpo
      rw [hobj] at hpo
      simp only [truthy, if_true] at hpo
      rw [Except.ok.injEq] at hpo
      rw [← hpo, applyOffer_price_current]
      have hget : jsGetD (.obj flds) "price" = (.num (.fin 0)) ∨
          jsGetD (.obj flds) "price" = (.str "0") := by
        rcases hp with hp | hp
        · exact Or.inl (by simp [jsGetD, hp])
        · exact Or.inr (by simp [jsGetD, hp])
      rcases hget with hg | hg <;> rw [hg]
      · rfl
      · rw [show jsToNumber (JVal.str "0") = JNum.fin 0 from jsNumOfString_zero]
        rfl
    have h1p : o1.price_current = .null := by
      rw [heq, (applyLdSku_fields _ _).1, (applyLdRating_fields _ _).1,
        (applyLdSeller_fields _ _).1, (applyLdBrand_fields _ _).1,
        (applyLdImages_fields _ _).1]
      exact ho2
    have ho3 : o3 = applyNext o1 pg.nextData := by
      rw [hap, applyApollo_none] at h3
      exact ((Except.ok.injEq _ _).mp h3).symm
    have hop : o.price_current = .null := by
      rw [ho, (applyCreators_fields _ _).1, (applyDom_price_rating _ _).1,
        (applySigi_fields _ _).1, ho3, (applyNext_fields _ _).1]
      exact h1p
    rw [hpc, hr]
    show finalizeNum o.price_current = none
    rw [hop]
    rfl
  · intro pg u g n rv prod hfd har hrv hap hmap
    obtain ⟨r, hex, hpc⟩ := except_map_ok _ _ _ hmap
    obtain ⟨o, hin, hr⟩ := extractProduct_eq _ _ _ _ _ hex
    obtain ⟨o1, o3, h1, h3, ho⟩ := extractInner_eq _ _ hin
    rw [ldStage, hfd] at h1
    obtain ⟨o2, hpo, heq⟩ := applyLd_eq _ _ _ h1
    have h1r : o1.rating = .null := by
      rw [heq, (applyLdSku_fields _ _).2.2, applyLdRating_rating, if_pos har]
      rcases hrv with hg | hg <;> rw [hg]
      · rfl
      · rw [show jsToNumber (JVal.str "0") = JNum.fin 0 from jsNumOfString_zero]
        rfl
    have ho3 : o3 = applyNext o1 pg.nextData := by
      rw [hap, applyApollo_none] at h3
      exact ((Except.ok.injEq _ _).mp h3).symm
    have hor : o.rating = .null := by
      rw [ho, (applyCreators_fields _ _).2.2, (applyDom_price_rating _ _).2,
        (applySigi_fields _ _).2.2, ho3, (applyNext_fields _ _).2.2]
      exact h1r
    rw [hpc, hr]
    show finalizeNum o.rating = none
    rw [hor]
    rfl

def prodC9 : JVal :=
  .obj [("@type", .str "Product"),
    ("offers", .obj [("price", .num (.fin 0))]),
    ("aggregateRating", .obj [("ratingValue", .num (.fin 0))])]

def pgC9w : PageState := { emptyPage with ldScripts := [some prodC9] }

theorem zero_price_and_zero_rating_null_witness :
    (extractProduct pgC9w "https://x/product/p9" "US" "t0").map
      (fun r => r.price_current) = .ok none ∧
    (extractProduct pgC9w "https://x/product/p9" "US" "t0").map
      (fun r => r.rating) = .ok none ∧
    ((none : Option JNum) = none) ∧ ((none : Option JNum) = none) := by
  have hm1 : (extractProduct pgC9w "https://x/product/p9" "US" "t0").map
      (fun r => r.price_current) = .ok none := by rfl
  have hm2 : (extractProduct pgC9w "https://x/product/p9" "US" "t0").map
      (fun r => r.rating) = .ok none := by rfl
  refine ⟨hm1, hm2, ?_, ?_⟩
  · exact zero_price_and_zero_rating_null.1 pgC9w "https://x/product/p9" "US" "t0"
      none prodC9 [("price", .num (.fin 0))] (by rfl) (by rfl) (Or.inl (by rfl))
      rfl hm1
  · exact zero_price_and_zero_rating_null.2 pgC9w "https://x/product/p9" "US" "t0"
      none prodC9 (by rfl) (by rfl) (Or.inl (by rfl)) rfl hm2

lemma buildCreators_null (anchors : List String) (origin : String) :
    ∀ c ∈ buildCreators anchors origin,
      c.likes = .null ∧ c.comments = .null ∧ c.shares = .null := by
  intro c hc
  unfold buildCreators at hc
  obtain ⟨href, _, hf⟩ := List.mem_filterMap.mp hc
  revert hf
  dsimp only
  split
  · intro hf
    rw [Option.some.injEq] at hf
    rw [← hf]
    exact ⟨rfl, rfl, rfl⟩
  · intro hf
    exact absurd hf (by simp)

lemma dedupeByVideoUrl_sub :
    ∀ (l : List Creator) (seen : List String) (c : Creator),
      c ∈ dedupeByVideoUrl l seen → c ∈ l := by
  intro l
  induction l with
  | nil => intro seen c h; exact absurd h (List.not_mem_nil c)
  | cons a t ih =>
    intro seen c h
    simp only [dedupeByVideoUrl] at h
    split at h
    · exact List.mem_cons_of_mem a (ih seen c h)
    · rcases List.mem_cons.mp h with he | ht
      · exact he ▸ List.mem_cons_self a t
      · exact List.mem_cons_of_mem a (ih _ c ht)

/-- C10: every element of an extracted record's `creators` sequence has
`likes = null`, `comments = null`, `shares = null` — the pipeline builds
each row with literal nulls (main.js:268-274) and never fills the
engagement fields, although the schema carries them. -/
theorem creators_engagement_always_null :
    ∀ pg u g n cs,
      (extractProduct pg u g n).map (fun r => r.creators) = .ok cs →
      ∀ c ∈ cs, c.likes = .null ∧ c.comments = .null ∧ c.shares = .null := by
  intro pg u g n cs hmap c hc
  obtain ⟨r, hex, hcs⟩ := except_map_ok _ _ _ hmap
  obtain ⟨o, hin, hr⟩ := extractProduct_eq _ _ _ _ _ hex
  obtain ⟨o1, o3, h1, h3, ho⟩ := extractInner_eq _ _ hin
  have hco : c ∈ o.creators := by
    rw [hcs, hr] at hc
    exact hc
  rw [ho] at hco
  have hc2 : c ∈ (dedupeByVideoUrl (buildCreators pg.anchors pg.origin) []).take 10 :=
    hco
  exact buildCreators_null _ _ c
    (dedupeByVideoUrl_sub _ _ _ (List.mem_of_mem_take hc2))

def pgC10w : PageState := { emptyPage with anchors := ["/@bob/video/123"] }

def crC10 : Creator := ⟨"@bob", "https://t/@bob/video/123", .null, .null, .null⟩

theorem creators_engagement_always_null_witness :
    crC10.likes = .null ∧ crC10.comments = .null ∧ crC10.shares = .null :=
  creators_engagement_always_null pgC10w "https://x/product/pa" "US" "t0" [crC10]
    (by rfl) crC10 (List.mem_singleton.mpr rfl)
